import Mathlib

set_option maxHeartbeats 1000000
set_option maxRecDepth 8000

/-!
A verification development for the WeCom self-built-app webhook monitor
(`extensions/wecom-app/src/monitor.ts`).  TypeScript strings are modelled as
lists of unicode scalar values (`List Char`); byte buffers as `List Nat`.
The platform crypto primitives (signature hash, AES envelope), the regex
based XML field extraction and the JSON builtin are external to the monitor
module and are taken as parameters of the model; every branch, field mapping
and state mutation of the monitor itself is translated directly.
-/

abbrev Str := List Char

def strLit (s : String) : Str := s.data

/-! ## UTF-8 byte model

`Buffer.from(text, "utf8")` is modelled by `utf8Encode`;
`buffer.toString("utf8")` (lossy, WHATWG replacement semantics) by
`utf8DecodeReplace`. -/

def replacementChar : Char := '�'

def utf8EncodeChar (c : Char) : List Nat :=
  let n := c.toNat
  if n < 0x80 then [n]
  else if n < 0x800 then [0xC0 + n / 64, 0x80 + n % 64]
  else if n < 0x10000 then [0xE0 + n / 4096, 0x80 + (n / 64) % 64, 0x80 + n % 64]
  else [0xF0 + n / 262144, 0x80 + (n / 4096) % 64, 0x80 + (n / 64) % 64, 0x80 + n % 64]

def utf8Encode : Str → List Nat
  | [] => []
  | c :: cs => utf8EncodeChar c ++ utf8Encode cs

def utf8ByteLen (s : Str) : Nat := (utf8Encode s).length

/-- Fuel-indexed body of the WHATWG UTF-8 decoder with replacement: invalid
sequences are replaced by U+FFFD, restarting at the byte that failed (maximal
subparts).  Each recursive call consumes at least one byte, so fuel equal to
the byte count is always sufficient. -/
def utf8DecodeGo : Nat → List Nat → Str
  | _, [] => []
  | 0, _ :: _ => []
  | f + 1, b :: rest =>
    if b < 0x80 then Char.ofNat b :: utf8DecodeGo f rest
    else if b < 0xC2 then replacementChar :: utf8DecodeGo f rest
    else if b < 0xE0 then
      match rest with
      | [] => [replacementChar]
      | b1 :: rest1 =>
        if 0x80 ≤ b1 ∧ b1 < 0xC0 then
          Char.ofNat ((b - 0xC0) * 64 + (b1 - 0x80)) :: utf8DecodeGo f rest1
        else replacementChar :: utf8DecodeGo f rest
    else if b < 0xF0 then
      match rest with
      | [] => [replacementChar]
      | b1 :: rest1 =>
        if (if b = 0xE0 then 0xA0 else 0x80) ≤ b1 ∧ b1 < (if b = 0xED then 0xA0 else 0xC0) then
          match rest1 with
          | [] => [replacementChar]
          | b2 :: rest2 =>
            if 0x80 ≤ b2 ∧ b2 < 0xC0 then
              Char.ofNat ((b - 0xE0) * 4096 + (b1 - 0x80) * 64 + (b2 - 0x80)) ::
                utf8DecodeGo f rest2
            else replacementChar :: utf8DecodeGo f rest1
        else replacementChar :: utf8DecodeGo f rest
    else if b < 0xF5 then
      match rest with
      | [] => [replacementChar]
      | b1 :: rest1 =>
        if (if b = 0xF0 then 0x90 else 0x80) ≤ b1 ∧ b1 < (if b = 0xF4 then 0x90 else 0xC0) then
          match rest1 with
          | [] => [replacementChar]
          | b2 :: rest2 =>
            if 0x80 ≤ b2 ∧ b2 < 0xC0 then
              match rest2 with
              | [] => [replacementChar]
              | b3 :: rest3 =>
                if 0x80 ≤ b3 ∧ b3 < 0xC0 then
                  Char.ofNat ((b - 0xF0) * 262144 + (b1 - 0x80) * 4096 +
                      (b2 - 0x80) * 64 + (b3 - 0x80)) :: utf8DecodeGo f rest3
                else replacementChar :: utf8DecodeGo f rest2
            else replacementChar :: utf8DecodeGo f rest1
        else replacementChar :: utf8DecodeGo f rest
    else replacementChar :: utf8DecodeGo f rest

/-- Lossy UTF-8 decoding, the model of `buffer.toString("utf8")`. -/
def utf8DecodeReplace (bs : List Nat) : Str := utf8DecodeGo bs.length bs

theorem utf8DecodeGo_nil (f : Nat) : utf8DecodeGo f [] = [] := by
  cases f <;> rfl

theorem utf8DecodeGo_fuel :
    ∀ (f g : Nat) (bs : List Nat), bs.length ≤ f → bs.length ≤ g →
      utf8DecodeGo f bs = utf8DecodeGo g bs := by
  intro f
  induction f with
  | zero =>
    intro g bs hf _
    have hbs : bs = [] := List.eq_nil_of_length_eq_zero (Nat.le_zero.mp hf)
    subst hbs
    rw [utf8DecodeGo_nil, utf8DecodeGo_nil]
  | succ f ih =>
    intro g bs hf hg
    match bs, g with
    | [], g => rw [utf8DecodeGo_nil, utf8DecodeGo_nil]
    | b :: rest, 0 => exact absurd hg (by simp)
    | b :: rest, g + 1 =>
      have hf1 : rest.length ≤ f := by simpa using hf
      have hg1 : rest.length ≤ g := by simpa using hg
      have e0 : utf8DecodeGo f [] = utf8DecodeGo g [] := by
        rw [utf8DecodeGo_nil, utf8DecodeGo_nil]
      have e1 : utf8DecodeGo f rest = utf8DecodeGo g rest := ih g rest hf1 hg1
      rcases rest with _ | ⟨b1, rest1⟩
      · simp only [utf8DecodeGo]
      · have hf2 : rest1.length ≤ f := by simp at hf1 ⊢; omega
        have hg2 : rest1.length ≤ g := by simp at hg1 ⊢; omega
        have e2 : utf8DecodeGo f rest1 = utf8DecodeGo g rest1 := ih g rest1 hf2 hg2
        rcases rest1 with _ | ⟨b2, rest2⟩
        · simp only [utf8DecodeGo]
          split_ifs <;> first | rfl | exact congrArg _ e0 | exact congrArg _ e1
        · have hf3 : rest2.length ≤ f := by simp at hf2 ⊢; omega
          have hg3 : rest2.length ≤ g := by simp at hg2 ⊢; omega
          have e3 : utf8DecodeGo f rest2 = utf8DecodeGo g rest2 := ih g rest2 hf3 hg3
          rcases rest2 with _ | ⟨b3, rest3⟩
          · simp only [utf8DecodeGo]
            split_ifs <;>
              first | rfl | exact congrArg _ e0 | exact congrArg _ e1 | exact congrArg _ e2
          · have hf4 : rest3.length ≤ f := by simp at hf3 ⊢; omega
            have hg4 : rest3.length ≤ g := by simp at hg3 ⊢; omega
            have e4 : utf8DecodeGo f rest3 = utf8DecodeGo g rest3 := ih g rest3 hf4 hg4
            simp only [utf8DecodeGo]
            split_ifs <;>
              first | rfl | exact congrArg _ e1 | exact congrArg _ e2 |
                exact congrArg _ e3 | exact congrArg _ e4

theorem utf8DecodeReplace_nil : utf8DecodeReplace [] = [] := rfl

theorem utf8DecodeReplace_low {b : Nat} (bs : List Nat) (h : b < 0x80) :
    utf8DecodeReplace (b :: bs) = Char.ofNat b :: utf8DecodeReplace bs := by
  show utf8DecodeGo (bs.length + 1) (b :: bs) = _
  simp only [utf8DecodeGo, if_pos h]
  rfl

theorem utf8DecodeReplace_invalid1 {b : Nat} (bs : List Nat)
    (h1 : 0x80 ≤ b) (h2 : b < 0xC2) :
    utf8DecodeReplace (b :: bs) = replacementChar :: utf8DecodeReplace bs := by
  show utf8DecodeGo (bs.length + 1) (b :: bs) = _
  simp only [utf8DecodeGo, if_neg (by omega : ¬ b < 0x80), if_pos h2]
  rfl

theorem utf8DecodeReplace_two {b b1 : Nat} (bs : List Nat)
    (hb1 : 0xC2 ≤ b) (hb2 : b < 0xE0) (hc : 0x80 ≤ b1 ∧ b1 < 0xC0) :
    utf8DecodeReplace (b :: b1 :: bs) =
      Char.ofNat ((b - 0xC0) * 64 + (b1 - 0x80)) :: utf8DecodeReplace bs := by
  show utf8DecodeGo (bs.length + 2) (b :: b1 :: bs) = _
  simp only [utf8DecodeGo, if_neg (by omega : ¬ b < 0x80),
    if_neg (by omega : ¬ b < 0xC2), if_pos hb2, if_pos hc]
  rw [utf8DecodeGo_fuel (bs.length + 1) bs.length bs (by omega) (by omega)]
  rfl

theorem utf8DecodeReplace_three {b b1 b2 : Nat} (bs : List Nat)
    (hb1 : 0xE0 ≤ b) (hb2 : b < 0xF0)
    (hc1 : (if b = 0xE0 then 0xA0 else 0x80) ≤ b1 ∧ b1 < (if b = 0xED then 0xA0 else 0xC0))
    (hc2 : 0x80 ≤ b2 ∧ b2 < 0xC0) :
    utf8DecodeReplace (b :: b1 :: b2 :: bs) =
      Char.ofNat ((b - 0xE0) * 4096 + (b1 - 0x80) * 64 + (b2 - 0x80)) ::
        utf8DecodeReplace bs := by
  show utf8DecodeGo (bs.length + 3) (b :: b1 :: b2 :: bs) = _
  simp only [utf8DecodeGo, if_neg (by omega : ¬ b < 0x80),
    if_neg (by omega : ¬ b < 0xC2), if_neg (by omega : ¬ b < 0xE0),
    if_pos hb2, if_pos hc1, if_pos hc2]
  rw [utf8DecodeGo_fuel (bs.length + 2) bs.length bs (by omega) (by omega)]
  rfl

theorem utf8DecodeReplace_four {b b1 b2 b3 : Nat} (bs : List Nat)
    (hb1 : 0xF0 ≤ b) (hb2 : b < 0xF5)
    (hc1 : (if b = 0xF0 then 0x90 else 0x80) ≤ b1 ∧ b1 < (if b = 0xF4 then 0x90 else 0xC0))
    (hc2 : 0x80 ≤ b2 ∧ b2 < 0xC0) (hc3 : 0x80 ≤ b3 ∧ b3 < 0xC0) :
    utf8DecodeReplace (b :: b1 :: b2 :: b3 :: bs) =
      Char.ofNat ((b - 0xF0) * 262144 + (b1 - 0x80) * 4096 + (b2 - 0x80) * 64 + (b3 - 0x80)) ::
        utf8DecodeReplace bs := by
  show utf8DecodeGo (bs.length + 4) (b :: b1 :: b2 :: b3 :: bs) = _
  simp only [utf8DecodeGo, if_neg (by omega : ¬ b < 0x80),
    if_neg (by omega : ¬ b < 0xC2), if_neg (by omega : ¬ b < 0xE0),
    if_neg (by omega : ¬ b < 0xF0), if_pos hb2, if_pos hc1, if_pos hc2, if_pos hc3]
  rw [utf8DecodeGo_fuel (bs.length + 3) bs.length bs (by omega) (by omega)]
  rfl

theorem utf8Encode_append (a b : Str) :
    utf8Encode (a ++ b) = utf8Encode a ++ utf8Encode b := by
  induction a with
  | nil => rfl
  | cons c cs ih => simp [utf8Encode, ih]

theorem utf8ByteLen_append (a b : Str) :
    utf8ByteLen (a ++ b) = utf8ByteLen a + utf8ByteLen b := by
  simp [utf8ByteLen, utf8Encode_append]

theorem utf8EncodeChar_length (c : Char) :
    1 ≤ (utf8EncodeChar c).length ∧ (utf8EncodeChar c).length ≤ 4 := by
  simp only [utf8EncodeChar]
  split_ifs <;> simp

/-- The decoder inverts the encoder on any single scalar value. -/
theorem utf8DecodeReplace_encodeChar (c : Char) (bs : List Nat) :
    utf8DecodeReplace (utf8EncodeChar c ++ bs) = c :: utf8DecodeReplace bs := by
  have hofn : Char.ofNat c.toNat = c := Char.ofNat_toNat c
  have hval : c.toNat < 0xD800 ∨ (0xDFFF < c.toNat ∧ c.toNat < 0x110000) := c.valid
  by_cases h1 : c.toNat < 0x80
  · rw [show utf8EncodeChar c = [c.toNat] from by simp [utf8EncodeChar, h1]]
    rw [List.singleton_append, utf8DecodeReplace_low bs h1, hofn]
  · by_cases h2 : c.toNat < 0x800
    · rw [show utf8EncodeChar c = [0xC0 + c.toNat / 64, 0x80 + c.toNat % 64] from by
        simp [utf8EncodeChar, h1, h2]]
      rw [List.cons_append, List.singleton_append,
        utf8DecodeReplace_two bs (by omega) (by omega) (by constructor <;> omega)]
      have harg : (0xC0 + c.toNat / 64 - 0xC0) * 64 + (0x80 + c.toNat % 64 - 0x80) =
          c.toNat := by omega
      rw [harg, hofn]
    · by_cases h3 : c.toNat < 0x10000
      · have hns : c.toNat < 0xD800 ∨ 0xDFFF < c.toNat := by
          rcases hval with h | ⟨h, _⟩
          · exact Or.inl h
          · exact Or.inr h
        rw [show utf8EncodeChar c =
            [0xE0 + c.toNat / 4096, 0x80 + (c.toNat / 64) % 64, 0x80 + c.toNat % 64] from by
          simp [utf8EncodeChar, h1, h2, h3]]
        have hc1 : (if 0xE0 + c.toNat / 4096 = 0xE0 then 0xA0 else 0x80) ≤
            0x80 + (c.toNat / 64) % 64 ∧
            0x80 + (c.toNat / 64) % 64 < (if 0xE0 + c.toNat / 4096 = 0xED then 0xA0 else 0xC0) := by
          constructor
          · split_ifs with h <;> omega
          · split_ifs with h
            · rcases hns with hh | hh <;> omega
            · omega
        rw [List.cons_append, List.cons_append, List.singleton_append,
          utf8DecodeReplace_three bs (by omega) (by omega) hc1 (by constructor <;> omega)]
        have harg : (0xE0 + c.toNat / 4096 - 0xE0) * 4096 +
            (0x80 + (c.toNat / 64) % 64 - 0x80) * 64 + (0x80 + c.toNat % 64 - 0x80) =
            c.toNat := by omega
        rw [harg, hofn]
      · have h4 : c.toNat < 0x110000 := by
          rcases hval with h | ⟨_, h⟩
          · omega
          · omega
        rw [show utf8EncodeChar c =
            [0xF0 + c.toNat / 262144, 0x80 + (c.toNat / 4096) % 64,
              0x80 + (c.toNat / 64) % 64, 0x80 + c.toNat % 64] from by
          simp [utf8EncodeChar, h1, h2, h3]]
        have hc1 : (if 0xF0 + c.toNat / 262144 = 0xF0 then 0x90 else 0x80) ≤
            0x80 + (c.toNat / 4096) % 64 ∧
            0x80 + (c.toNat / 4096) % 64 <
              (if 0xF0 + c.toNat / 262144 = 0xF4 then 0x90 else 0xC0) := by
          constructor
          · split_ifs with h <;> omega
          · split_ifs with h <;> omega
        rw [List.cons_append, List.cons_append, List.cons_append, List.singleton_append,
          utf8DecodeReplace_four bs (by omega) (by omega) hc1 (by constructor <;> omega)
            (by constructor <;> omega)]
        have harg : (0xF0 + c.toNat / 262144 - 0xF0) * 262144 +
            (0x80 + (c.toNat / 4096) % 64 - 0x80) * 4096 +
            (0x80 + (c.toNat / 64) % 64 - 0x80) * 64 + (0x80 + c.toNat % 64 - 0x80) =
            c.toNat := by omega
        rw [harg, hofn]

/-- The decoder inverts the encoder: round trip on whole strings. -/
theorem utf8DecodeReplace_utf8Encode (s : Str) :
    utf8DecodeReplace (utf8Encode s) = s := by
  induction s with
  | nil => rfl
  | cons c cs ih => rw [utf8Encode, utf8DecodeReplace_encodeChar, ih]

/-- Leading orphan continuation bytes each decode to one replacement char. -/
theorem utf8DecodeReplace_contPrefix (pre bs : List Nat)
    (h : ∀ b ∈ pre, 0x80 ≤ b ∧ b < 0xC2) :
    utf8DecodeReplace (pre ++ bs) =
      List.replicate pre.length replacementChar ++ utf8DecodeReplace bs := by
  induction pre with
  | nil => simp
  | cons b pre ih =>
    have hb := h b (by simp)
    rw [List.cons_append, utf8DecodeReplace_invalid1 _ hb.1 hb.2,
      ih (fun x hx => h x (by simp [hx]))]
    simp [List.replicate_succ]

/-- Every byte after the first in an encoded scalar is a continuation byte. -/
theorem utf8EncodeChar_tail_cont (c : Char) :
    ∀ b ∈ (utf8EncodeChar c).drop 1, 0x80 ≤ b ∧ b < 0xC0 := by
  intro b hb
  simp only [utf8EncodeChar] at hb
  split_ifs at hb
  · simp at hb
  · simp at hb
    omega
  · simp at hb
    rcases hb with rfl | rfl <;> constructor <;> omega
  · simp at hb
    rcases hb with rfl | rfl | rfl <;> constructor <;> omega

theorem utf8EncodeChar_drop_cont (c : Char) (k : Nat) (hk : 1 ≤ k) :
    ∀ b ∈ (utf8EncodeChar c).drop k, 0x80 ≤ b ∧ b < 0xC2 := by
  intro b hb
  have hsplit : (utf8EncodeChar c).drop k = ((utf8EncodeChar c).drop 1).drop (k - 1) := by
    rw [List.drop_drop]
    congr 1
    omega
  rw [hsplit] at hb
  have h2 := utf8EncodeChar_tail_cont c b (List.mem_of_mem_drop hb)
  omega

theorem utf8ByteLen_replicate_repl (j : Nat) :
    utf8ByteLen (List.replicate j replacementChar) = 3 * j := by
  induction j with
  | zero => rfl
  | succ j ih =>
    rw [List.replicate_succ]
    have h : utf8ByteLen (replacementChar :: List.replicate j replacementChar) =
        (utf8EncodeChar replacementChar).length +
          utf8ByteLen (List.replicate j replacementChar) := by
      simp [utf8ByteLen, utf8Encode]
    rw [h, ih, show (utf8EncodeChar replacementChar).length = 3 from by decide]
    omega

/-- Decoding any trailing slice of a valid encoding yields a string whose
re-encoded size exceeds the slice size by at most 6 bytes (at most three
orphan continuation bytes, each re-encoded as a 3-byte replacement char). -/
theorem utf8ByteLen_decode_drop (s : Str) :
    ∀ k, utf8ByteLen (utf8DecodeReplace ((utf8Encode s).drop k)) ≤
      (utf8Encode s).length - k + 6 := by
  induction s with
  | nil =>
    intro k
    simp [utf8Encode, utf8DecodeReplace_nil, utf8ByteLen]
  | cons c cs ih =>
    intro k
    have hm := utf8EncodeChar_length c
    rcases Nat.eq_zero_or_pos k with rfl | hkpos
    · rw [List.drop_zero, utf8DecodeReplace_utf8Encode]
      simp [utf8ByteLen]
    · by_cases hk : (utf8EncodeChar c).length ≤ k
      · have hsplit : (utf8Encode (c :: cs)).drop k =
            (utf8Encode cs).drop (k - (utf8EncodeChar c).length) := by
          rw [utf8Encode, List.drop_append_eq_append_drop,
            List.drop_eq_nil_of_le hk, List.nil_append]
        rw [hsplit]
        have := ih (k - (utf8EncodeChar c).length)
        have hlen : (utf8Encode (c :: cs)).length =
            (utf8EncodeChar c).length + (utf8Encode cs).length := by
          rw [utf8Encode, List.length_append]
        omega
      · have hk2 : k ≤ (utf8EncodeChar c).length := by omega
        have hsplit : (utf8Encode (c :: cs)).drop k =
            (utf8EncodeChar c).drop k ++ utf8Encode cs := by
          rw [utf8Encode, List.drop_append_of_le_length hk2]
        rw [hsplit, utf8DecodeReplace_contPrefix _ _ (utf8EncodeChar_drop_cont c k hkpos),
          utf8DecodeReplace_utf8Encode, utf8ByteLen_append, utf8ByteLen_replicate_repl]
        have hdlen : ((utf8EncodeChar c).drop k).length = (utf8EncodeChar c).length - k := by
          simp
        have hlen : (utf8Encode (c :: cs)).length =
            (utf8EncodeChar c).length + (utf8Encode cs).length := by
          rw [utf8Encode, List.length_append]
        have : utf8ByteLen cs = (utf8Encode cs).length := rfl
        omega

example : utf8EncodeChar '中' = [0xE4, 0xB8, 0xAD] := by decide

example : utf8DecodeReplace [0xE4, 0xB8, 0xAD] = ['中'] := by decide

example : utf8DecodeReplace [0xB8, 0xAD, 0x61] = [replacementChar, replacementChar, 'a'] := by
  decide

/-! ## JavaScript string helpers -/

/-- The WhiteSpace and LineTerminator set used by `String.prototype.trim`. -/
def isJsWhitespace (c : Char) : Bool :=
  decide ((0x09 ≤ c.toNat ∧ c.toNat ≤ 0x0D) ∨ c.toNat = 0x20 ∨ c.toNat = 0xA0 ∨
    c.toNat = 0x1680 ∨ (0x2000 ≤ c.toNat ∧ c.toNat ≤ 0x200A) ∨ c.toNat = 0x2028 ∨
    c.toNat = 0x2029 ∨ c.toNat = 0x202F ∨ c.toNat = 0x205F ∨ c.toNat = 0x3000 ∨
    c.toNat = 0xFEFF)

/-- Model of `String.prototype.trim`. -/
def jsTrim (s : Str) : Str :=
  ((s.dropWhile isJsWhitespace).reverse.dropWhile isJsWhitespace).reverse

/-- Model of `String.prototype.toLowerCase` (sufficient for the ASCII message
type tags compared by the monitor). -/
def jsToLower (s : Str) : Str := s.map Char.toLower

/-! ## Monitor constants and stream state (monitor.ts lines 34-52) -/

def STREAM_TTL_MS : Nat := 10 * 60 * 1000

def STREAM_MAX_BYTES : Nat := 512000

def INITIAL_STREAM_WAIT_MS : Nat := 800

structure StreamState where
  streamId : Str
  msgid : Option Str := none
  createdAt : Nat
  updatedAt : Nat
  started : Bool
  finished : Bool
  error : Option Str := none
  content : Str
deriving DecidableEq, Repr

/-- Association lists model the two `Map`s (`streams`, `msgidToStreamId`) and
the target registry; `mapGet` is first-match lookup, `mapSet` replaces an
existing key in place (as `Map.set` keeps insertion order) or appends. -/
def mapGet {α : Type} (m : List (Str × α)) (k : Str) : Option α :=
  (m.find? (fun e => e.1 == k)).map Prod.snd

def mapHas {α : Type} (m : List (Str × α)) (k : Str) : Bool :=
  (mapGet m k).isSome

def mapSet {α : Type} : List (Str × α) → Str → α → List (Str × α)
  | [], k, v => [(k, v)]
  | e :: m, k, v => if e.1 == k then (k, v) :: m else e :: mapSet m k v

def mapDelete {α : Type} (m : List (Str × α)) (k : Str) : List (Str × α) :=
  m.filter (fun e => !(e.1 == k))

/-- The module level mutable stream table and deduplication index. -/
structure Store where
  streams : List (Str × StreamState)
  msgidToStreamId : List (Str × Str)
deriving DecidableEq, Repr

/-- monitor.ts `pruneStreams` (lines 62-74): drop stream states older than the
TTL, then drop index entries whose stream no longer exists. -/
def pruneStreams (now : Nat) (store : Store) : Store :=
  let cutoff := now - STREAM_TTL_MS
  let streams1 := store.streams.filter (fun e => !(decide (e.2.updatedAt < cutoff)))
  let index1 := store.msgidToStreamId.filter (fun e => mapHas streams1 e.2)
  ⟨streams1, index1⟩

/-- monitor.ts `truncateUtf8Bytes` (lines 76-81): keep the trailing
`maxBytes` bytes of the UTF-8 encoding and decode them lossily, exactly as
`buf.subarray(buf.length - maxBytes).toString("utf8")` does. -/
def truncateUtf8Bytes (text : Str) (maxBytes : Nat) : Str :=
  let buf := utf8Encode text
  if buf.length ≤ maxBytes then text
  else utf8DecodeReplace (buf.drop (buf.length - maxBytes))

/-- monitor.ts `appendStreamContent` (lines 308-312).  The separator is the
two-newline string of the template literal; the empty-content test is the JS
truthiness of `state.content`. -/
def appendStreamContent (state : StreamState) (nextText : Str) (now : Nat) : StreamState :=
  let content :=
    if state.content ≠ [] then jsTrim (state.content ++ ['\n', '\n'] ++ nextText)
    else jsTrim nextText
  { state with content := truncateUtf8Bytes content STREAM_MAX_BYTES, updatedAt := now }

/-! ## Replies (monitor.ts lines 226-247).

The HTTP body of a successful reply is the encrypted envelope built by
`buildEncryptedJsonReply`; the envelope codec lives outside this module, so a
reply is modelled by the plaintext JSON handed to it — the value the platform
obtains back by decrypting the response. -/

structure StreamReplyBody where
  id : Str
  finish : Bool
  content : Str
deriving DecidableEq, Repr

inductive ReplyJson where
  | streamReply (body : StreamReplyBody)
  | emptyReply
deriving DecidableEq, Repr

def buildStreamPlaceholderReply (streamId : Str) : ReplyJson :=
  .streamReply ⟨streamId, false, strLit "稍等~"⟩

def buildStreamReplyFromState (state : StreamState) : ReplyJson :=
  .streamReply ⟨state.streamId, state.finished,
    truncateUtf8Bytes state.content STREAM_MAX_BYTES⟩

/-! ## Inbound message record (monitor.ts `parseWecomAppPlainMessage`) -/

/-- The normalized inbound message record.  Optional fields are `none` when
the corresponding JS field is `undefined`; nested accesses `stream.id` and
`event.eventtype` are flattened into dedicated fields. -/
structure InboundMessage where
  msgtype : Option Str := none
  MsgType : Option Str := none
  msgid : Option Str := none
  MsgId : Option Str := none
  content : Option Str := none
  Content : Option Str := none
  fromUserid : Option Str := none
  FromUserName : Option Str := none
  ToUserName : Option Str := none
  CreateTime : Option Str := none
  AgentID : Option Str := none
  Event : Option Str := none
  streamIdField : Option Str := none
  eventEventtype : Option Str := none
deriving DecidableEq, Repr

/-- The JS nullish coalescing operator `a ?? b`. -/
def nullish {α : Type} (a b : Option α) : Option α :=
  match a with
  | some v => some v
  | none => b

/-- `String(msg.msgtype ?? msg.MsgType ?? "").toLowerCase()` (line 495). -/
def msgtypeOf (msg : InboundMessage) : Str :=
  jsToLower ((nullish msg.msgtype msg.MsgType).getD [])

/-- `msg.msgid ?? msg.MsgId ? String(msg.msgid ?? msg.MsgId) : undefined`
(line 496): the conditional tests JS truthiness, so a present-but-empty id
still yields `undefined`. -/
def resolveMsgid (msg : InboundMessage) : Option Str :=
  match nullish msg.msgid msg.MsgId with
  | some v => if v = [] then none else some v
  | none => none

/-- monitor.ts `isXmlFormat` (lines 181-184). -/
def isXmlFormat (raw : Str) : Bool :=
  let trimmed := jsTrim raw
  trimmed.head? == some '<' && trimmed.getLast? == some '>'

/-- monitor.ts `parseWecomAppPlainMessage` (lines 257-291).  The regex scan
of `parseXmlBody` and the `JSON.parse` builtin are platform primitives taken
as parameters: `xmlFields` returns the tag/value pairs extracted from a
tag-delimited body, `jsonMsgParse` returns `none` exactly when `JSON.parse`
throws or yields a non-object, mirroring the `catch` and object test.  The
field mapping of both branches is translated directly; on either failure the
function returns the empty record, never an error. -/
def parseWecomAppPlainMessage (xmlFields : Str → List (Str × Str))
    (jsonMsgParse : Str → Option InboundMessage) (raw : Str) : InboundMessage :=
  let trimmed := jsTrim raw
  if trimmed.head? == some '<' && trimmed.getLast? == some '>' then
    let xmlData := xmlFields trimmed
    { msgtype := mapGet xmlData (strLit "MsgType")
      MsgType := mapGet xmlData (strLit "MsgType")
      msgid := mapGet xmlData (strLit "MsgId")
      MsgId := mapGet xmlData (strLit "MsgId")
      content := mapGet xmlData (strLit "Content")
      Content := mapGet xmlData (strLit "Content")
      fromUserid :=
        match mapGet xmlData (strLit "FromUserName") with
        | some v => if v = [] then none else some v
        | none => none
      FromUserName := mapGet xmlData (strLit "FromUserName")
      ToUserName := mapGet xmlData (strLit "ToUserName")
      CreateTime :=
        match mapGet xmlData (strLit "CreateTime") with
        | some v => if v = [] then none else some v
        | none => none
      AgentID :=
        match mapGet xmlData (strLit "AgentID") with
        | some v => if v = [] then none else some v
        | none => none
      Event := mapGet xmlData (strLit "Event") }
  else
    (jsonMsgParse trimmed).getD {}

/-! ## Asynchronous generation callbacks (monitor.ts lines 602-652)

`dispatchWecomAppMessage` runs in the background; its `onChunk` and `onError`
hooks and its `then`/`catch` continuations mutate the stream table at
arbitrary later times.  They are modelled as events applied to the store; the
bounded wait of `waitForStreamContent` is modelled by the list of events that
have been applied by the time the HTTP response is built. -/

inductive StreamEvent where
  | chunk (targetId : Str) (text : Str) (now : Nat)
  | errorEvt (targetId : Str) (message : Str) (now : Nat)
  | resolved (targetId : Str) (now : Nat)
deriving DecidableEq, Repr

/-- One callback firing: `onChunk` (append), `onError` / `.catch` (record the
error text, default the content, mark finished), `.then` (mark finished). -/
def applyStreamEvent (store : Store) (ev : StreamEvent) : Store :=
  match ev with
  | .chunk id text now =>
    match mapGet store.streams id with
    | none => store
    | some current =>
      { store with streams := mapSet store.streams id (appendStreamContent current text now) }
  | .errorEvt id emsg now =>
    match mapGet store.streams id with
    | none => store
    | some current =>
      let content := if current.content ≠ [] then current.content else strLit "Error: " ++ emsg
      let updated := { current with
        error := some emsg
        content := content
        finished := true
        updatedAt := now }
      { store with streams := mapSet store.streams id updated }
  | .resolved id now =>
    match mapGet store.streams id with
    | none => store
    | some current =>
      let updated := { current with finished := true, updatedAt := now }
      { store with streams := mapSet store.streams id updated }

def applyStreamEvents (store : Store) (evs : List StreamEvent) : Store :=
  evs.foldl applyStreamEvent store

/-- Outcome of handling one decrypted inbound message: the final store, the
plaintext of the encrypted 200 response, and how many times
`dispatchWecomAppMessage` was invoked. -/
structure HandledOutcome where
  store : Store
  plaintextReply : ReplyJson
  dispatchCount : Nat
deriving DecidableEq, Repr

/-- The store created for a new content message (lines 582-592), the
`started`/`finished` bookkeeping of lines 596-659, and the events observed
during the bounded wait. -/
def newContentWaitStore (store : Store) (msgidR : Option Str) (freshId : Str)
    (coreAvailable : Bool) (evs : List StreamEvent) (now : Nat) : Store :=
  let index1 :=
    match msgidR with
    | some m => mapSet store.msgidToStreamId m freshId
    | none => store.msgidToStreamId
  let streams1 := mapSet store.streams freshId
    { streamId := freshId, msgid := msgidR, createdAt := now, updatedAt := now,
      started := false, finished := false, content := [] }
  let store1 : Store := ⟨streams1, index1⟩
  let store2 :=
    if coreAvailable then
      match mapGet store1.streams freshId with
      | some st =>
        { store1 with streams := mapSet store1.streams freshId ({ st with started := true }) }
      | none => store1
    else
      match mapGet store1.streams freshId with
      | some st =>
        let updated := { st with finished := true, updatedAt := now }
        { store1 with streams := mapSet store1.streams freshId updated }
      | none => store1
  applyStreamEvents store2 evs

/-- JS truthiness of `state.content.trim() || state.error` (line 663). -/
def hasContentOrError (st : StreamState) : Bool :=
  !(jsTrim st.content == []) || (match st.error with | some e => !(e == []) | none => false)

/-- monitor.ts lines 495-678: classification of one decrypted message and
construction of the reply.  `freshId` stands for the value of
`createStreamId()` (16 random bytes, hex); `coreAvailable` is whether
`tryGetWecomAppRuntime()` returned a runtime. -/
def handleDecryptedMessage (store : Store) (msg : InboundMessage) (freshId : Str)
    (coreAvailable : Bool) (evs : List StreamEvent) (now : Nat) : HandledOutcome :=
  let msgtype := msgtypeOf msg
  let msgidR := resolveMsgid msg
  if msgtype = strLit "stream" then
    -- 流式刷新请求 (lines 499-522)
    let streamId := jsTrim (msg.streamIdField.getD [])
    let stOpt := if streamId ≠ [] then mapGet store.streams streamId else none
    let reply :=
      match stOpt with
      | some st => buildStreamReplyFromState st
      | none => buildStreamReplyFromState
          { streamId := if streamId = [] then strLit "unknown" else streamId,
            createdAt := now, updatedAt := now, started := true, finished := true,
            content := [] }
    ⟨store, reply, 0⟩
  else if msgidR.isSome ∧ mapHas store.msgidToStreamId (msgidR.getD []) then
    -- 重复消息 (lines 525-538)
    let streamId := (mapGet store.msgidToStreamId (msgidR.getD [])).getD []
    ⟨store, buildStreamPlaceholderReply streamId, 0⟩
  else if msgtype = strLit "event" then
    -- 事件消息 (lines 541-580): welcome dispatch is an external active send;
    -- both event paths acknowledge with an empty encrypted payload.
    ⟨store, ReplyJson.emptyReply, 0⟩
  else
    -- 新内容消息 (lines 582-677)
    let finalStore := newContentWaitStore store msgidR freshId coreAvailable evs now
    let reply :=
      match mapGet finalStore.streams freshId with
      | some st => if hasContentOrError st then buildStreamReplyFromState st
          else buildStreamPlaceholderReply freshId
      | none => buildStreamPlaceholderReply freshId
    ⟨finalStore, reply, if coreAvailable then 1 else 0⟩

/-! ## Accounts, registry and HTTP handling -/

/-- The credential fields of `ResolvedWecomAppAccount` read by the monitor.
Fields tested with JS truthiness (`!token`, `!encodingAESKey`) are plain
strings with the empty string standing for a missing value. -/
structure WecomAccount where
  configured : Bool
  token : Str
  encodingAESKey : Str
  receiveId : Str
deriving DecidableEq, Repr

/-- A registered webhook target.  `tag` models JS reference identity of the
`normalizedTarget` object captured by the unregister closure (each call of
`registerWecomAppWebhookTarget` spreads the argument into a fresh object, so
distinct registrations are never reference-equal). -/
structure WecomAppWebhookTarget where
  tag : Nat
  account : WecomAccount
  path : Str
deriving DecidableEq, Repr

abbrev Registry := List (Str × List WecomAppWebhookTarget)

/-- monitor.ts `normalizeWebhookPath` (lines 54-60). -/
def normalizeWebhookPath (raw : Str) : Str :=
  let trimmed := jsTrim raw
  if trimmed = [] then ['/']
  else
    let withSlash := if trimmed.head? = some '/' then trimmed else '/' :: trimmed
    if 1 < withSlash.length ∧ withSlash.getLast? = some '/' then withSlash.dropLast
    else withSlash

/-- monitor.ts `registerWecomAppWebhookTarget` (lines 324-335), state
transition part: append a freshly created normalized target under the
normalized path key. -/
def registerWecomAppWebhookTarget (reg : Registry) (target : WecomAppWebhookTarget)
    (freshTag : Nat) : Registry :=
  let key := normalizeWebhookPath target.path
  let normalizedTarget : WecomAppWebhookTarget := { target with path := key, tag := freshTag }
  let existing := (mapGet reg key).getD []
  mapSet reg key (existing ++ [normalizedTarget])

/-- The closure returned by `registerWecomAppWebhookTarget` (lines 330-334),
as a function of the registry state at call time: filter out the captured
object (identified by its tag), keep the path only if targets remain. -/
def unregisterWecomAppWebhookTarget (reg : Registry) (key : Str) (tag : Nat) : Registry :=
  let updated := ((mapGet reg key).getD []).filter (fun entry => !(entry.tag == tag))
  if 0 < updated.length then mapSet reg key updated else mapDelete reg key

/-- An HTTP response of the handler: either a plain status/body, or the 200
`jsonOk` answer whose body is the encrypted envelope; the envelope is
represented by the plaintext JSON handed to `buildEncryptedJsonReply`, which
is what the platform recovers on decryption. -/
inductive HttpResponse where
  | plainText (status : Nat) (body : Str)
  | encryptedJson (plaintextReply : ReplyJson)
deriving DecidableEq, Repr

def HttpResponse.status : HttpResponse → Nat
  | .plainText s _ => s
  | .encryptedJson _ => 200

/-- The external crypto module (`crypto.ts`, not part of the monitor):
signature verification and envelope decryption, taken as parameters.
`decryptFn` returns `none` exactly when `decryptWecomAppEncrypted` throws. -/
structure CryptoModel where
  verify : Str → Str → Str → Str → Str → Bool
  decryptFn : Str → Str → Str → Option Str

/-- GET branch of `handleWecomAppWebhookRequest` (lines 358-399): URL
verification handshake.  A missing decryption error message is rendered as
the fallback text, as in `res.end(msg || "decrypt failed")`. -/
def handleGetRequest (cm : CryptoModel) (targets : List WecomAppWebhookTarget)
    (timestamp nonce signature echostr : Str) : HttpResponse :=
  if timestamp = [] ∨ nonce = [] ∨ signature = [] ∨ echostr = [] then
    .plainText 400 (strLit "missing query params")
  else
    let found := targets.find? (fun candidate =>
      candidate.account.configured && !(candidate.account.token == ([] : Str)) &&
        cm.verify candidate.account.token timestamp nonce echostr signature)
    match found with
    | none => .plainText 401 (strLit "unauthorized")
    | some target =>
      if target.account.encodingAESKey = [] then .plainText 401 (strLit "unauthorized")
      else
        match cm.decryptFn target.account.encodingAESKey target.account.receiveId echostr with
        | some plain => .plainText 200 plain
        | none => .plainText 400 (strLit "decrypt failed")

structure PostOutcome where
  store : Store
  response : HttpResponse
  dispatchCount : Nat
deriving Repr

/-- POST processing of `handleWecomAppWebhookRequest` after the envelope
fields have been extracted from the body (lines 449-678): missing ciphertext,
authentication across candidate targets, configuration check, decryption,
plaintext parsing and classification. -/
def handlePostEnvelope (cm : CryptoModel) (xmlFields : Str → List (Str × Str))
    (jsonMsgParse : Str → Option InboundMessage) (targets : List WecomAppWebhookTarget)
    (store : Store) (encrypt msgSignature msgTimestamp msgNonce : Str) (freshId : Str)
    (coreAvailable : Bool) (evs : List StreamEvent) (now : Nat) : PostOutcome :=
  if encrypt = [] then ⟨store, .plainText 400 (strLit "missing encrypt"), 0⟩
  else
    let found := targets.find? (fun candidate =>
      !(candidate.account.token == ([] : Str)) &&
        cm.verify candidate.account.token msgTimestamp msgNonce encrypt msgSignature)
    match found with
    | none => ⟨store, .plainText 401 (strLit "unauthorized"), 0⟩
    | some target =>
      if !target.account.configured || target.account.token = [] ||
          target.account.encodingAESKey = [] then
        ⟨store, .plainText 500 (strLit "wecom-app not configured"), 0⟩
      else
        match cm.decryptFn target.account.encodingAESKey target.account.receiveId encrypt with
        | none => ⟨store, .plainText 400 (strLit "decrypt failed"), 0⟩
        | some plain =>
          let msg := parseWecomAppPlainMessage xmlFields jsonMsgParse plain
          let r := handleDecryptedMessage store msg freshId coreAvailable evs now
          ⟨r.store, .encryptedJson r.plaintextReply, r.dispatchCount⟩

/-- Outcome of `readRawBody` (lines 123-152). -/
inductive BodyReadOutcome where
  | ok (raw : Str)
  | tooLarge
  | emptyPayload
  | readFailed (message : Str)
deriving DecidableEq, Repr

/-- An incoming HTTP request: method, URL pathname, query parameters and the
body read outcome. -/
structure HttpRequestModel where
  method : Str
  path : Str
  query : List (Str × Str)
  body : BodyReadOutcome
deriving Repr

/-- `resolveSignatureParam` (lines 222-224). -/
def resolveSignatureParam (query : List (Str × Str)) : Str :=
  (nullish (mapGet query (strLit "msg_signature"))
    (nullish (mapGet query (strLit "msgsignature")) (mapGet query (strLit "signature")))).getD []

/-- External platform builtins used by the handler besides the crypto module:
`xmlFields` models the regex extraction of `parseXmlBody`, `jsonEnvelope`
models `JSON.parse` on the raw POST body followed by
`String(record.encrypt ?? record.Encrypt ?? "")` (`none` when parse throws),
and `jsonMsgParse` models `JSON.parse` on decrypted plaintext (`none` when it
throws or yields a non-object). -/
structure PlatformModel where
  xmlFields : Str → List (Str × Str)
  jsonEnvelope : Str → Option Str
  jsonMsgParse : Str → Option InboundMessage

/-- monitor.ts `handleWecomAppWebhookRequest` (lines 340-678).  Returns
`none` when the path has no registered targets (the function returns `false`
and leaves the response to other handlers); otherwise the store after the
request, the response, and the number of generation dispatches. -/
def handleWecomAppWebhookRequest (cm : CryptoModel) (pm : PlatformModel)
    (registry : Registry) (store0 : Store) (req : HttpRequestModel) (freshId : Str)
    (coreAvailable : Bool) (evs : List StreamEvent) (now : Nat) :
    Option (Store × HttpResponse × Nat) :=
  let store := pruneStreams now store0
  let path := normalizeWebhookPath req.path
  match mapGet registry path with
  | none => none
  | some targets =>
    if targets.length = 0 then none
    else
      let timestamp := (mapGet req.query (strLit "timestamp")).getD []
      let nonce := (mapGet req.query (strLit "nonce")).getD []
      let signature := resolveSignatureParam req.query
      if req.method = strLit "GET" then
        let echostr := (mapGet req.query (strLit "echostr")).getD []
        some (store, handleGetRequest cm targets timestamp nonce signature echostr, 0)
      else if req.method ≠ strLit "POST" then
        some (store, .plainText 405 (strLit "Method Not Allowed"), 0)
      else if timestamp = [] ∨ nonce = [] ∨ signature = [] then
        some (store, .plainText 400 (strLit "missing query params"), 0)
      else
        match req.body with
        | .tooLarge => some (store, .plainText 413 (strLit "payload too large"), 0)
        | .emptyPayload => some (store, .plainText 400 (strLit "empty payload"), 0)
        | .readFailed m => some (store, .plainText 400 m, 0)
        | .ok rawBody =>
          let extracted : Option (Str × Str × Str × Str) :=
            if isXmlFormat rawBody then
              let xmlData := pm.xmlFields rawBody
              some ((mapGet xmlData (strLit "Encrypt")).getD [],
                (nullish (mapGet xmlData (strLit "MsgSignature")) (some signature)).getD [],
                (nullish (mapGet xmlData (strLit "TimeStamp")) (some timestamp)).getD [],
                (nullish (mapGet xmlData (strLit "Nonce")) (some nonce)).getD [])
            else
              match pm.jsonEnvelope rawBody with
              | some e => some (e, signature, timestamp, nonce)
              | none => none
          match extracted with
          | none => some (store, .plainText 400 (strLit "invalid payload format"), 0)
          | some (encrypt, msgSignature, msgTimestamp, msgNonce) =>
            let po := handlePostEnvelope cm pm.xmlFields pm.jsonMsgParse targets store
              encrypt msgSignature msgTimestamp msgNonce freshId coreAvailable evs now
            some (po.store, po.response, po.dispatchCount)

/-! ## Association list lemmas -/

theorem mapGet_cons {α : Type} (e : Str × α) (m : List (Str × α)) (k : Str) :
    mapGet (e :: m) k = if e.1 == k then some e.2 else mapGet m k := by
  simp only [mapGet, List.find?]
  cases h : e.1 == k <;> simp [h]

theorem mapGet_mapSet_self {α : Type} (m : List (Str × α)) (k : Str) (v : α) :
    mapGet (mapSet m k v) k = some v := by
  induction m with
  | nil => simp [mapSet, mapGet_cons]
  | cons e m ih =>
    by_cases h : e.1 == k
    · simp [mapSet, h, mapGet_cons]
    · simp only [mapSet]
      rw [if_neg h, mapGet_cons, if_neg h]
      exact ih

theorem mapGet_mapSet_ne {α : Type} (m : List (Str × α)) (k k' : Str) (v : α)
    (h : k' ≠ k) : mapGet (mapSet m k v) k' = mapGet m k' := by
  have hbeq : ((k : Str) == k') = false := by
    cases hb : (k : Str) == k'
    · rfl
    · exact absurd (eq_of_beq hb).symm h
  induction m with
  | nil => simp [mapSet, mapGet_cons, mapGet, hbeq]
  | cons e m ih =>
    by_cases he : e.1 == k
    · simp only [mapSet]
      rw [if_pos he, mapGet_cons, mapGet_cons]
      have : e.1 = k := eq_of_beq he
      simp [this, hbeq]
    · simp only [mapSet]
      rw [if_neg he, mapGet_cons, mapGet_cons, ih]

theorem mapGet_filter_of_mem {α : Type} (p : Str × α → Bool) (m : List (Str × α))
    (k : Str) (v : α) (hget : mapGet m k = some v) (hp : p (k, v) = true) :
    mapGet (m.filter p) k = some v := by
  induction m with
  | nil => simp [mapGet] at hget
  | cons e m ih =>
    rw [mapGet_cons] at hget
    by_cases he : e.1 == k
    · rw [if_pos he] at hget
      have hek : e.1 = k := eq_of_beq he
      have hev : e = (k, v) := by
        cases e
        simp at hek hget
        simp [hek, hget]
      rw [List.filter_cons, hev]
      simp only [hp, if_pos]
      rw [mapGet_cons]
      simp
    · rw [if_neg he] at hget
      rw [List.filter_cons]
      by_cases hpe : p e
      · simp only [hpe, if_pos]
        rw [mapGet_cons, if_neg he]
        exact ih hget
      · simp only [hpe]
        simp only [Bool.false_eq_true, if_neg, ite_false]
        exact ih hget

theorem mapGet_filter_sat {α : Type} (p : Str × α → Bool) (m : List (Str × α))
    (k : Str) (v : α) (h : mapGet (m.filter p) k = some v) : p (k, v) = true := by
  induction m with
  | nil => simp [mapGet] at h
  | cons e m ih =>
    rw [List.filter_cons] at h
    by_cases hpe : p e
    · simp only [hpe, if_pos] at h
      rw [mapGet_cons] at h
      by_cases he : e.1 == k
      · rw [if_pos he] at h
        have hek : e.1 = k := eq_of_beq he
        have hev : e = (k, v) := by
          cases e
          simp at hek h
          simp [hek, h]
        rw [hev] at hpe
        exact hpe
      · rw [if_neg he] at h
        exact ih h
    · simp only [hpe, Bool.false_eq_true, if_neg, ite_false] at h
      exact ih h

theorem mapHas_of_get {α : Type} {m : List (Str × α)} {k : Str} {v : α}
    (h : mapGet m k = some v) : mapHas m k = true := by
  simp [mapHas, h]

/-! ## Stream event lemmas -/

theorem applyStreamEvent_index (store : Store) (ev : StreamEvent) :
    (applyStreamEvent store ev).msgidToStreamId = store.msgidToStreamId := by
  cases ev with
  | chunk id text evnow =>
    simp only [applyStreamEvent]
    cases mapGet store.streams id <;> rfl
  | errorEvt id emsg evnow =>
    simp only [applyStreamEvent]
    cases mapGet store.streams id <;> rfl
  | resolved id evnow =>
    simp only [applyStreamEvent]
    cases mapGet store.streams id <;> rfl

theorem applyStreamEvents_index (evs : List StreamEvent) (store : Store) :
    (applyStreamEvents store evs).msgidToStreamId = store.msgidToStreamId := by
  induction evs generalizing store with
  | nil => rfl
  | cons ev evs ih =>
    show (applyStreamEvents (applyStreamEvent store ev) evs).msgidToStreamId = _
    rw [ih, applyStreamEvent_index]

/-- One callback preserves existence of every stream entry, its terminal
flag, and the presence of an error. -/
theorem applyStreamEvent_preserves (store : Store) (ev : StreamEvent) (id : Str)
    (st : StreamState) (hget : mapGet store.streams id = some st) :
    ∃ st', mapGet (applyStreamEvent store ev).streams id = some st' ∧
      (st.finished = true → st'.finished = true) ∧
      (st.error.isSome = true → st'.error.isSome = true) := by
  cases ev with
  | chunk tid text tnow =>
    simp only [applyStreamEvent]
    cases hc : mapGet store.streams tid with
    | none => exact ⟨st, hget, fun h => h, fun h => h⟩
    | some current =>
      by_cases hid : id = tid
      · subst hid
        rw [hget] at hc
        cases hc
        refine ⟨appendStreamContent st text tnow, mapGet_mapSet_self _ _ _, ?_, ?_⟩ <;>
          simp [appendStreamContent]
      · exact ⟨st, by rw [mapGet_mapSet_ne _ _ _ _ hid]; exact hget, fun h => h, fun h => h⟩
  | errorEvt tid emsg tnow =>
    simp only [applyStreamEvent]
    cases hc : mapGet store.streams tid with
    | none => exact ⟨st, hget, fun h => h, fun h => h⟩
    | some current =>
      by_cases hid : id = tid
      · subst hid
        rw [hget] at hc
        cases hc
        refine ⟨_, mapGet_mapSet_self _ _ _, ?_, ?_⟩ <;> simp
      · exact ⟨st, by rw [mapGet_mapSet_ne _ _ _ _ hid]; exact hget, fun h => h, fun h => h⟩
  | resolved tid tnow =>
    simp only [applyStreamEvent]
    cases hc : mapGet store.streams tid with
    | none => exact ⟨st, hget, fun h => h, fun h => h⟩
    | some current =>
      by_cases hid : id = tid
      · subst hid
        rw [hget] at hc
        cases hc
        refine ⟨_, mapGet_mapSet_self _ _ _, ?_, ?_⟩ <;> simp
      · exact ⟨st, by rw [mapGet_mapSet_ne _ _ _ _ hid]; exact hget, fun h => h, fun h => h⟩

/-! ## Claim theorems -/

/-- C1 (counterexample).  A new text message with id m1 on an empty store,
with the generation backend producing no output during the bounded wait
(no events): the response plaintext is the stream placeholder whose content
is the fixed text 稍等~, not the empty string claimed. -/
theorem wecom_C1_counterexample :
    (handleDecryptedMessage ⟨[], []⟩
        { msgtype := some (strLit "text"), msgid := some (strLit "m1"),
          content := some (strLit "hi") }
        (strLit "s1") true [] 0).plaintextReply =
      ReplyJson.streamReply ⟨strLit "s1", false, strLit "稍等~"⟩ ∧
    ¬ ((handleDecryptedMessage ⟨[], []⟩
        { msgtype := some (strLit "text"), msgid := some (strLit "m1"),
          content := some (strLit "hi") }
        (strLit "s1") true [] 0).plaintextReply =
      ReplyJson.streamReply ⟨strLit "s1", false, ([] : Str)⟩) := by
  constructor
  · decide
  · decide

/-- C1 (amended).  For every new content message (not a stream poll, not a
duplicate, not an event), if the stream state holds no non-whitespace content
and no error by the end of the bounded initial wait, the response plaintext is
the stream reply with finish false and content the fixed placeholder text
稍等~ (not the empty string), carrying the freshly allocated stream id. -/
theorem wecom_C1_amended (store : Store) (msg : InboundMessage) (freshId : Str)
    (coreAvailable : Bool) (evs : List StreamEvent) (now : Nat)
    (hstream : msgtypeOf msg ≠ strLit "stream")
    (hdup : ¬ ((resolveMsgid msg).isSome = true ∧
      mapHas store.msgidToStreamId ((resolveMsgid msg).getD []) = true))
    (hevent : msgtypeOf msg ≠ strLit "event")
    (st : StreamState)
    (hst : mapGet (newContentWaitStore store (resolveMsgid msg) freshId coreAvailable
      evs now).streams freshId = some st)
    (hcontent : jsTrim st.content = [])
    (herror : st.error = none) :
    (handleDecryptedMessage store msg freshId coreAvailable evs now).plaintextReply =
      ReplyJson.streamReply ⟨freshId, false, strLit "稍等~"⟩ := by
  simp only [handleDecryptedMessage]
  rw [if_neg hstream, if_neg hdup, if_neg hevent]
  simp only [hst]
  have hfalse : hasContentOrError st = false := by
    simp [hasContentOrError, hcontent, herror]
  simp [hfalse, buildStreamPlaceholderReply]

/-- C1 witness: the amended statement at a concrete new message. -/
theorem wecom_C1_witness :
    (handleDecryptedMessage ⟨[], []⟩
        { msgtype := some (strLit "text"), msgid := some (strLit "m1"),
          content := some (strLit "hi") }
        (strLit "s1") true [] 0).plaintextReply =
      ReplyJson.streamReply ⟨strLit "s1", false, strLit "稍等~"⟩ :=
  wecom_C1_amended ⟨[], []⟩
    { msgtype := some (strLit "text"), msgid := some (strLit "m1"),
      content := some (strLit "hi") }
    (strLit "s1") true [] 0 (by decide) (by decide) (by decide)
    ⟨strLit "s1", some (strLit "m1"), 0, 0, true, false, none, []⟩
    (by decide) (by decide) (by decide)

/-- C9 (confirmed).  A duplicate delivery (message id already in the
deduplication index) always gets the fixed placeholder reply with the mapped
stream id, finish false and content 稍等~, regardless of the state of the
mapped stream; the store is unchanged and generation is not dispatched. -/
theorem wecom_C9_duplicate_placeholder (store : Store) (msg : InboundMessage)
    (m sid freshId : Str) (coreAvailable : Bool) (evs : List StreamEvent) (now : Nat)
    (hmsgid : resolveMsgid msg = some m)
    (hstream : msgtypeOf msg ≠ strLit "stream")
    (hmap : mapGet store.msgidToStreamId m = some sid) :
    handleDecryptedMessage store msg freshId coreAvailable evs now =
      ⟨store, ReplyJson.streamReply ⟨sid, false, strLit "稍等~"⟩, 0⟩ := by
  simp only [handleDecryptedMessage]
  rw [if_neg hstream]
  have hcond : (resolveMsgid msg).isSome = true ∧
      mapHas store.msgidToStreamId ((resolveMsgid msg).getD []) = true := by
    rw [hmsgid]
    exact ⟨rfl, by simp [mapHas, hmap]⟩
  rw [if_pos hcond]
  simp [hmsgid, hmap, buildStreamPlaceholderReply]

/-- C9 witness: a duplicate delivery whose mapped stream is already finished
and errored with accumulated content still gets the fixed placeholder. -/
theorem wecom_C9_witness :
    handleDecryptedMessage
      ⟨[(strLit "s9", ⟨strLit "s9", none, 0, 0, true, true, some (strLit "boom"),
          strLit "done"⟩)], [(strLit "m1", strLit "s9")]⟩
      { msgtype := some (strLit "text"), msgid := some (strLit "m1") }
      (strLit "s2") true [] 5 =
      ⟨⟨[(strLit "s9", ⟨strLit "s9", none, 0, 0, true, true, some (strLit "boom"),
          strLit "done"⟩)], [(strLit "m1", strLit "s9")]⟩,
       ReplyJson.streamReply ⟨strLit "s9", false, strLit "稍等~"⟩, 0⟩ :=
  wecom_C9_duplicate_placeholder _ _ (strLit "m1") (strLit "s9") (strLit "s2") true [] 5
    (by decide) (by decide) (by decide)

/-- C5 (confirmed).  Once a stream state is terminal (finished true), no
later operation moves it out of the terminal status: every generation
callback (chunk append, error, dispatch completion) keeps the entry present
with finished still true and never clears a recorded error, and the
poll-for-update and duplicate-delivery branches do not modify the store at
all.  Entries can only disappear through TTL pruning. -/
theorem wecom_C5_terminal_no_exit (store : Store) (ev : StreamEvent) (id : Str)
    (st : StreamState) (hget : mapGet store.streams id = some st)
    (hfin : st.finished = true) :
    (∃ st', mapGet (applyStreamEvent store ev).streams id = some st' ∧
      st'.finished = true ∧ (st.error.isSome = true → st'.error.isSome = true)) ∧
    (∀ msg freshId core evs mnow, msgtypeOf msg = strLit "stream" →
      (handleDecryptedMessage store msg freshId core evs mnow).store = store) ∧
    (∀ msg m freshId core evs mnow, resolveMsgid msg = some m →
      msgtypeOf msg ≠ strLit "stream" → mapHas store.msgidToStreamId m = true →
      (handleDecryptedMessage store msg freshId core evs mnow).store = store) := by
  refine ⟨?_, ?_, ?_⟩
  · obtain ⟨st', h1, h2, h3⟩ := applyStreamEvent_preserves store ev id st hget
    exact ⟨st', h1, h2 hfin, h3⟩
  · intro msg freshId core evs mnow hm
    simp only [handleDecryptedMessage]
    rw [if_pos hm]
  · intro msg m freshId core evs mnow hmsgid hstream hmap
    simp only [handleDecryptedMessage]
    rw [if_neg hstream]
    have hcond : (resolveMsgid msg).isSome = true ∧
        mapHas store.msgidToStreamId ((resolveMsgid msg).getD []) = true := by
      rw [hmsgid]
      exact ⟨rfl, hmap⟩
    rw [if_pos hcond]

/-- C5 witness: the theorem applied to a store holding a finished, errored
stream, for a later chunk callback and a poll on the same id. -/
theorem wecom_C5_witness :
    (handleDecryptedMessage
        ⟨[(strLit "s9", ⟨strLit "s9", none, 0, 0, true, true, some (strLit "boom"),
            strLit "done"⟩)], []⟩
        { msgtype := some (strLit "stream"), streamIdField := some (strLit "s9") }
        (strLit "f") true [] 7).store =
      ⟨[(strLit "s9", ⟨strLit "s9", none, 0, 0, true, true, some (strLit "boom"),
          strLit "done"⟩)], []⟩ :=
  (wecom_C5_terminal_no_exit
      ⟨[(strLit "s9", ⟨strLit "s9", none, 0, 0, true, true, some (strLit "boom"),
          strLit "done"⟩)], []⟩
      (StreamEvent.chunk (strLit "s9") (strLit "more") 9) (strLit "s9")
      ⟨strLit "s9", none, 0, 0, true, true, some (strLit "boom"), strLit "done"⟩
      (by decide) (by decide)).2.1
    { msgtype := some (strLit "stream"), streamIdField := some (strLit "s9") }
    (strLit "f") true [] 7 (by decide)

theorem filter_idem {α : Type} (p : α → Bool) (l : List α) :
    (l.filter p).filter p = l.filter p := by
  induction l with
  | nil => rfl
  | cons e l ih =>
    by_cases hp : p e
    · simp [List.filter_cons, hp, ih]
    · simp [List.filter_cons, hp, ih]

theorem pruneStreams_idem (now : Nat) (store : Store) :
    pruneStreams now (pruneStreams now store) = pruneStreams now store := by
  simp only [pruneStreams]
  rw [filter_idem]
  congr 1
  exact filter_idem _ _

/-- C6 (confirmed).  After pruning, no remaining stream state is older than
the ten minute TTL and every remaining deduplication index entry maps to a
stream id still present in the stream table; the handler performs its work on
the pruned store (running pruning again at the start of the request changes
nothing). -/
theorem wecom_C6_prune_invariants (store : Store) (now : Nat) :
    (∀ id st, mapGet (pruneStreams now store).streams id = some st →
      ¬ (st.updatedAt < now - STREAM_TTL_MS)) ∧
    (∀ m sid, mapGet (pruneStreams now store).msgidToStreamId m = some sid →
      mapHas (pruneStreams now store).streams sid = true) ∧
    (∀ cm pm registry req freshId core evs,
      handleWecomAppWebhookRequest cm pm registry store req freshId core evs now =
      handleWecomAppWebhookRequest cm pm registry (pruneStreams now store) req freshId
        core evs now) := by
  refine ⟨?_, ?_, ?_⟩
  · intro id st h
    have hp := mapGet_filter_sat _ store.streams id st h
    simpa using hp
  · intro m sid h
    exact mapGet_filter_sat _ store.msgidToStreamId m sid h
  · intro cm pm registry req freshId core evs
    simp only [handleWecomAppWebhookRequest, pruneStreams_idem]

/-- C6 witness: a fresh entry survives pruning and its index entry still
points into the stream table. -/
theorem wecom_C6_witness :
    mapHas (pruneStreams 5 ⟨[(strLit "sA", ⟨strLit "sA", some (strLit "mA"), 5, 5, true,
        false, none, []⟩)], [(strLit "mA", strLit "sA")]⟩).streams (strLit "sA") = true :=
  (wecom_C6_prune_invariants
      ⟨[(strLit "sA", ⟨strLit "sA", some (strLit "mA"), 5, 5, true, false, none, []⟩)],
        [(strLit "mA", strLit "sA")]⟩ 5).2.1
    (strLit "mA") (strLit "sA") (by decide)

/-! ## Truncation helpers for the byte cap analysis -/

theorem utf8Encode_replicate_length (n : Nat) (c : Char) :
    (utf8Encode (List.replicate n c)).length = n * (utf8EncodeChar c).length := by
  induction n with
  | zero => simp [utf8Encode]
  | succ n ih =>
    rw [List.replicate_succ]
    show (utf8EncodeChar c ++ utf8Encode (List.replicate n c)).length = _
    rw [List.length_append, ih, Nat.succ_mul]
    omega

theorem jsTrim_replicate_mid (n : Nat) :
    jsTrim (List.replicate n '中') = List.replicate n '中' := by
  have hdrop : ∀ m, List.dropWhile isJsWhitespace (List.replicate m '中') =
      List.replicate m '中' := by
    intro m
    cases m with
    | zero => rfl
    | succ m =>
      rw [List.replicate_succ, List.dropWhile_cons]
      simp [show isJsWhitespace '中' = false from by decide]
  unfold jsTrim
  rw [hdrop, List.reverse_replicate, hdrop, List.reverse_replicate]

theorem truncate_replicate_mid_170667 :
    truncateUtf8Bytes (List.replicate 170667 '中') STREAM_MAX_BYTES =
      replacementChar :: replacementChar :: List.replicate 170666 '中' := by
  have hlen : (utf8Encode (List.replicate 170667 '中')).length = 512001 := by
    rw [utf8Encode_replicate_length, show (utf8EncodeChar '中').length = 3 from by decide]
  simp only [truncateUtf8Bytes]
  rw [hlen, if_neg (by decide : ¬ (512001 ≤ STREAM_MAX_BYTES)),
    show 512001 - STREAM_MAX_BYTES = 1 from by decide]
  have hdrop : (utf8Encode (List.replicate 170667 '中')).drop 1 =
      0xB8 :: 0xAD :: utf8Encode (List.replicate 170666 '中') := by
    rw [show (170667 : Nat) = 170666 + 1 from by norm_num, List.replicate_succ]
    show ((utf8EncodeChar '中' ++ utf8Encode (List.replicate 170666 '中')).drop 1) = _
    rw [show utf8EncodeChar '中' = [0xE4, 0xB8, 0xAD] from by decide]
    rfl
  rw [hdrop, utf8DecodeReplace_invalid1 _ (by norm_num) (by norm_num),
    utf8DecodeReplace_invalid1 _ (by norm_num) (by norm_num),
    utf8DecodeReplace_utf8Encode]

theorem truncate_replicate_mid_170668 :
    truncateUtf8Bytes (List.replicate 170668 '中') STREAM_MAX_BYTES =
      replacementChar :: replacementChar :: List.replicate 170666 '中' := by
  have hlen : (utf8Encode (List.replicate 170668 '中')).length = 512004 := by
    rw [utf8Encode_replicate_length, show (utf8EncodeChar '中').length = 3 from by decide]
  simp only [truncateUtf8Bytes]
  rw [hlen, if_neg (by decide : ¬ (512004 ≤ STREAM_MAX_BYTES)),
    show 512004 - STREAM_MAX_BYTES = 4 from by decide]
  have hdrop : (utf8Encode (List.replicate 170668 '中')).drop 4 =
      0xB8 :: 0xAD :: utf8Encode (List.replicate 170666 '中') := by
    rw [show (170668 : Nat) = 170666 + 1 + 1 from by norm_num, List.replicate_succ,
      List.replicate_succ]
    show ((utf8EncodeChar '中' ++
      (utf8EncodeChar '中' ++ utf8Encode (List.replicate 170666 '中'))).drop 4) = _
    rw [show utf8EncodeChar '中' = [0xE4, 0xB8, 0xAD] from by decide]
    rfl
  rw [hdrop, utf8DecodeReplace_invalid1 _ (by norm_num) (by norm_num),
    utf8DecodeReplace_invalid1 _ (by norm_num) (by norm_num),
    utf8DecodeReplace_utf8Encode]

/-- Concrete poll request and oversized stream state for the C7 analysis. -/
def pollMsgSb : InboundMessage :=
  { msgtype := some (strLit "stream"), streamIdField := some (strLit "sb") }

def bigStateSb : StreamState :=
  ⟨strLit "sb", none, 0, 0, true, false, none, List.replicate 170668 '中'⟩

def bigStoreSb : Store := ⟨[(strLit "sb", bigStateSb)], []⟩

/-- C7 (counterexample).  A poll on a stream whose accumulated content is
170668 CJK characters (512004 UTF-8 bytes, possible because appends can
overshoot the cap, see the C2 analysis): the reply re-truncates the content,
so it does not carry the accumulated content itself — the first character
differs and two replacement characters appear. -/
theorem wecom_C7_counterexample :
    (handleDecryptedMessage bigStoreSb pollMsgSb (strLit "f") true [] 0).plaintextReply =
      ReplyJson.streamReply ⟨strLit "sb", false,
        replacementChar :: replacementChar :: List.replicate 170666 '中'⟩ ∧
    replacementChar :: replacementChar :: List.replicate 170666 '中' ≠
      bigStateSb.content := by
  constructor
  · simp only [handleDecryptedMessage]
    rw [if_pos (by decide : msgtypeOf pollMsgSb = strLit "stream")]
    have hid : jsTrim ((pollMsgSb.streamIdField).getD []) = strLit "sb" := by decide
    rw [hid, if_pos (by decide : strLit "sb" ≠ ([] : Str))]
    have hget : mapGet bigStoreSb.streams (strLit "sb") = some bigStateSb := by
      show mapGet [(strLit "sb", bigStateSb)] (strLit "sb") = some bigStateSb
      rw [mapGet_cons]
      simp
    rw [hget]
    show buildStreamReplyFromState bigStateSb = _
    simp only [buildStreamReplyFromState]
    show ReplyJson.streamReply ⟨strLit "sb", false,
      truncateUtf8Bytes (List.replicate 170668 '中') STREAM_MAX_BYTES⟩ = _
    rw [truncate_replicate_mid_170668]
  · intro h
    have h1 : (replacementChar :: replacementChar :: List.replicate 170666 '中').head? =
        bigStateSb.content.head? := by rw [h]
    have h2 : bigStateSb.content = '中' :: List.replicate 170667 '中' := by
      show List.replicate 170668 '中' = _
      rw [show (170668 : Nat) = 170667 + 1 from by norm_num, List.replicate_succ]
    rw [h2] at h1
    simp only [List.head?] at h1
    exact absurd (Option.some.injEq _ _ ▸ h1) (by decide)

/-- C7 (amended).  For every poll-for-update request: the store is unchanged
and generation is not dispatched; an absent (or empty) stream id yields the
synthesized finished empty reply; a present id yields that state's finished
flag together with its accumulated content re-truncated to the byte cap,
which equals the accumulated content whenever its encoded size is within the
cap. -/
theorem wecom_C7_amended (store : Store) (msg : InboundMessage) (freshId : Str)
    (coreAvailable : Bool) (evs : List StreamEvent) (now : Nat)
    (hm : msgtypeOf msg = strLit "stream") :
    (handleDecryptedMessage store msg freshId coreAvailable evs now).store = store ∧
    (handleDecryptedMessage store msg freshId coreAvailable evs now).dispatchCount = 0 ∧
    (∀ st, jsTrim (msg.streamIdField.getD []) ≠ [] →
      mapGet store.streams (jsTrim (msg.streamIdField.getD [])) = some st →
      (handleDecryptedMessage store msg freshId coreAvailable evs now).plaintextReply =
        ReplyJson.streamReply ⟨st.streamId, st.finished,
          truncateUtf8Bytes st.content STREAM_MAX_BYTES⟩ ∧
      (utf8ByteLen st.content ≤ STREAM_MAX_BYTES →
        truncateUtf8Bytes st.content STREAM_MAX_BYTES = st.content)) ∧
    ((jsTrim (msg.streamIdField.getD []) = [] ∨
      mapGet store.streams (jsTrim (msg.streamIdField.getD [])) = none) →
      (handleDecryptedMessage store msg freshId coreAvailable evs now).plaintextReply =
        ReplyJson.streamReply ⟨(if jsTrim (msg.streamIdField.getD []) = [] then
          strLit "unknown" else jsTrim (msg.streamIdField.getD [])), true, []⟩) := by
  refine ⟨?_, ?_, ?_, ?_⟩
  · simp only [handleDecryptedMessage]
    rw [if_pos hm]
  · simp only [handleDecryptedMessage]
    rw [if_pos hm]
  · intro st hne hget
    constructor
    · simp only [handleDecryptedMessage]
      rw [if_pos hm, if_pos hne, hget]
      rfl
    · intro hle
      have hle2 : (utf8Encode st.content).length ≤ STREAM_MAX_BYTES := hle
      simp only [truncateUtf8Bytes]
      rw [if_pos hle2]
  · intro habs
    simp only [handleDecryptedMessage]
    rw [if_pos hm]
    by_cases hid : jsTrim (msg.streamIdField.getD []) = []
    · rw [if_neg (by simpa using hid)]
      simp [buildStreamReplyFromState, truncateUtf8Bytes, utf8Encode, hid]
    · rcases habs with h | h
      · exact absurd h hid
      · rw [if_pos hid, h]
        simp [buildStreamReplyFromState, truncateUtf8Bytes, utf8Encode, hid]

/-- C7 witness: the amended statement at a concrete poll on a present stream
and at a poll on an unknown id. -/
theorem wecom_C7_witness :
    (handleDecryptedMessage
        ⟨[(strLit "s9", ⟨strLit "s9", none, 0, 0, true, true, none, strLit "hi"⟩)], []⟩
        { msgtype := some (strLit "stream"), streamIdField := some (strLit "s9") }
        (strLit "f") true [] 3).plaintextReply =
      ReplyJson.streamReply ⟨strLit "s9", true,
        truncateUtf8Bytes (strLit "hi") STREAM_MAX_BYTES⟩ ∧
    truncateUtf8Bytes (strLit "hi") STREAM_MAX_BYTES = strLit "hi" :=
  (wecom_C7_amended
      ⟨[(strLit "s9", ⟨strLit "s9", none, 0, 0, true, true, none, strLit "hi"⟩)], []⟩
      { msgtype := some (strLit "stream"), streamIdField := some (strLit "s9") }
      (strLit "f") true [] 3 (by decide)).2.2.1
    ⟨strLit "s9", none, 0, 0, true, true, none, strLit "hi"⟩ (by decide) (by decide)
    |>.imp id (fun h => h (by decide))

/-- The pre-truncation value appended by `appendStreamContent`: the trimmed
concatenation (with the blank line separator) or the trimmed new text. -/
def appendJoined (state : StreamState) (text : Str) : Str :=
  if state.content ≠ [] then jsTrim (state.content ++ ['\n', '\n'] ++ text)
  else jsTrim text

/-- Appending to a stream with empty content truncates the trimmed new text. -/
theorem appendStreamContent_empty (st : StreamState) (h : st.content = []) (text : Str)
    (now : Nat) : (appendStreamContent st text now).content =
      truncateUtf8Bytes (jsTrim text) STREAM_MAX_BYTES := by
  simp [appendStreamContent, h]

/-- C2 (counterexample).  Appending 170667 CJK characters (512001 UTF-8
bytes) to an empty stream cuts one byte inside the first character: the
retained content starts with two replacement characters, is not a suffix of
the appended text, and its re-encoded size is 512004 bytes, over the cap. -/
theorem wecom_C2_counterexample :
    STREAM_MAX_BYTES <
      utf8ByteLen ((appendStreamContent ⟨strLit "sC", none, 0, 0, true, false, none, []⟩
        (List.replicate 170667 '中') 0).content) ∧
    replacementChar ∈ ((appendStreamContent ⟨strLit "sC", none, 0, 0, true, false, none, []⟩
        (List.replicate 170667 '中') 0).content) ∧
    ¬ ((appendStreamContent ⟨strLit "sC", none, 0, 0, true, false, none, []⟩
        (List.replicate 170667 '中') 0).content).IsSuffix
      (List.replicate 170667 '中') := by
  have hres : (appendStreamContent ⟨strLit "sC", none, 0, 0, true, false, none, []⟩
      (List.replicate 170667 '中') 0).content =
      replacementChar :: replacementChar :: List.replicate 170666 '中' := by
    rw [appendStreamContent_empty _ rfl, jsTrim_replicate_mid,
      truncate_replicate_mid_170667]
  refine ⟨?_, ?_, ?_⟩
  · rw [hres]
    show STREAM_MAX_BYTES <
      (utf8EncodeChar replacementChar ++ (utf8EncodeChar replacementChar ++
        utf8Encode (List.replicate 170666 '中'))).length
    rw [List.length_append, List.length_append, utf8Encode_replicate_length,
      show (utf8EncodeChar replacementChar).length = 3 from by decide,
      show (utf8EncodeChar '中').length = 3 from by decide]
    norm_num [STREAM_MAX_BYTES]
  · rw [hres]
    exact List.mem_cons_self _ _
  · rw [hres]
    intro hsuf
    have hlen := hsuf.length_le
    rw [List.length_cons, List.length_cons, List.length_replicate,
      List.length_replicate] at hlen
    exact absurd hlen (by norm_num)

/-- C2 (amended).  After an append, the content is the lossy decoding of the
trailing 512000 bytes of the UTF-8 encoding of the joined text (the most
recent bytes are retained); when the joined text fits the cap it is kept
verbatim, and in every case the re-encoded size is at most cap + 6 — the cut
may fall inside a multi-byte code point, in which case the orphan bytes
surface as replacement characters and the cap can be exceeded by those
replacement characters (never by more than six bytes). -/
theorem wecom_C2_amended (state : StreamState) (text : Str) (now : Nat) :
    utf8ByteLen ((appendStreamContent state text now).content) ≤ STREAM_MAX_BYTES + 6 ∧
    (appendStreamContent state text now).content =
      utf8DecodeReplace ((utf8Encode (appendJoined state text)).drop
        ((utf8Encode (appendJoined state text)).length - STREAM_MAX_BYTES)) ∧
    (utf8ByteLen (appendJoined state text) ≤ STREAM_MAX_BYTES →
      (appendStreamContent state text now).content = appendJoined state text) := by
  have hcontent : (appendStreamContent state text now).content =
      truncateUtf8Bytes (appendJoined state text) STREAM_MAX_BYTES := rfl
  by_cases hle : (utf8Encode (appendJoined state text)).length ≤ STREAM_MAX_BYTES
  · refine ⟨?_, ?_, ?_⟩
    · rw [hcontent]
      simp only [truncateUtf8Bytes]
      rw [if_pos hle]
      show (utf8Encode (appendJoined state text)).length ≤ _
      omega
    · rw [hcontent]
      simp only [truncateUtf8Bytes]
      rw [if_pos hle,
        show (utf8Encode (appendJoined state text)).length - STREAM_MAX_BYTES = 0 from by
          omega,
        List.drop_zero, utf8DecodeReplace_utf8Encode]
    · intro _
      rw [hcontent]
      simp only [truncateUtf8Bytes]
      rw [if_pos hle]
  · refine ⟨?_, ?_, ?_⟩
    · rw [hcontent]
      simp only [truncateUtf8Bytes]
      rw [if_neg hle]
      have hb := utf8ByteLen_decode_drop (appendJoined state text)
        ((utf8Encode (appendJoined state text)).length - STREAM_MAX_BYTES)
      omega
    · rw [hcontent]
      simp only [truncateUtf8Bytes]
      rw [if_neg hle]
    · intro hle2
      exact absurd hle2 hle

/-- C2 witness: a small append is kept verbatim. -/
theorem wecom_C2_witness :
    (appendStreamContent ⟨strLit "sC", none, 0, 0, true, false, none, []⟩
      (strLit "hi") 5).content =
      appendJoined ⟨strLit "sC", none, 0, 0, true, false, none, []⟩ (strLit "hi") :=
  (wecom_C2_amended ⟨strLit "sC", none, 0, 0, true, false, none, []⟩
    (strLit "hi") 5).2.2 (by decide)

/-- Classification result for a new content message: the handler reaches the
final branch of monitor.ts (lines 582-677). -/
theorem handleDecryptedMessage_new (store : Store) (msg : InboundMessage) (freshId : Str)
    (core : Bool) (evs : List StreamEvent) (now : Nat)
    (hstream : msgtypeOf msg ≠ strLit "stream")
    (hdup : ¬ ((resolveMsgid msg).isSome = true ∧
      mapHas store.msgidToStreamId ((resolveMsgid msg).getD []) = true))
    (hevent : msgtypeOf msg ≠ strLit "event") :
    handleDecryptedMessage store msg freshId core evs now =
      ⟨newContentWaitStore store (resolveMsgid msg) freshId core evs now,
       (match mapGet (newContentWaitStore store (resolveMsgid msg) freshId core evs
           now).streams freshId with
        | some st => if hasContentOrError st then buildStreamReplyFromState st
            else buildStreamPlaceholderReply freshId
        | none => buildStreamPlaceholderReply freshId),
       if core then 1 else 0⟩ := by
  simp only [handleDecryptedMessage]
  rw [if_neg hstream, if_neg hdup, if_neg hevent]

/-- Classification result for a duplicate delivery (lines 525-538). -/
theorem handleDecryptedMessage_dup (store : Store) (msg : InboundMessage) (m sid : Str)
    (freshId : Str) (core : Bool) (evs : List StreamEvent) (now : Nat)
    (hmsgid : resolveMsgid msg = some m)
    (hstream : msgtypeOf msg ≠ strLit "stream")
    (hmap : mapGet store.msgidToStreamId m = some sid) :
    handleDecryptedMessage store msg freshId core evs now =
      ⟨store, buildStreamPlaceholderReply sid, 0⟩ := by
  simp only [handleDecryptedMessage]
  rw [if_neg hstream]
  have hcond : (resolveMsgid msg).isSome = true ∧
      mapHas store.msgidToStreamId ((resolveMsgid msg).getD []) = true := by
    rw [hmsgid]
    exact ⟨rfl, by simp [mapHas, hmap]⟩
  rw [if_pos hcond]
  simp [hmsgid, hmap]

/-- For a message carrying id m, the new content branch records m → freshId
in the deduplication index. -/
theorem newContentWaitStore_index (store : Store) (m fid : Str) (core : Bool)
    (evs : List StreamEvent) (now : Nat) :
    (newContentWaitStore store (some m) fid core evs now).msgidToStreamId =
      mapSet store.msgidToStreamId m fid := by
  simp only [newContentWaitStore]
  rw [applyStreamEvents_index]
  split
  · split <;> rfl
  · split <;> rfl

/-- C3 (confirmed).  A first delivery of message id m (not yet indexed)
dispatches the generation backend exactly once and records m → fid; a second
delivery of the same id — after arbitrary further callbacks, provided the
stream state is still within the TTL when the second request prunes — is
answered with the placeholder for the same stream id fid and dispatches
nothing. -/
theorem wecom_C3_dedup (store : Store) (msg : InboundMessage) (m : Str)
    (fid fid2 : Str) (evs evsMid evs2 : List StreamEvent) (now now2 : Nat) (core2 : Bool)
    (hmsgid : resolveMsgid msg = some m)
    (hstream : msgtypeOf msg ≠ strLit "stream")
    (hevent : msgtypeOf msg ≠ strLit "event")
    (hnew : mapHas store.msgidToStreamId m = false)
    (hTTL : ∃ st, mapGet (applyStreamEvents
        (handleDecryptedMessage store msg fid true evs now).store evsMid).streams fid =
        some st ∧ ¬ (st.updatedAt < now2 - STREAM_TTL_MS)) :
    (handleDecryptedMessage store msg fid true evs now).dispatchCount = 1 ∧
    mapGet (handleDecryptedMessage store msg fid true evs now).store.msgidToStreamId m =
      some fid ∧
    (handleDecryptedMessage (pruneStreams now2 (applyStreamEvents
        (handleDecryptedMessage store msg fid true evs now).store evsMid))
      msg fid2 core2 evs2 now2).dispatchCount = 0 ∧
    (handleDecryptedMessage (pruneStreams now2 (applyStreamEvents
        (handleDecryptedMessage store msg fid true evs now).store evsMid))
      msg fid2 core2 evs2 now2).plaintextReply = buildStreamPlaceholderReply fid := by
  have hdup : ¬ ((resolveMsgid msg).isSome = true ∧
      mapHas store.msgidToStreamId ((resolveMsgid msg).getD []) = true) := by
    intro hc
    rw [hmsgid] at hc
    have h2 := hc.2
    simp only [Option.getD_some] at h2
    simp [hnew] at h2
  have hmain := handleDecryptedMessage_new store msg fid true evs now hstream hdup hevent
  have hidx1 : mapGet (handleDecryptedMessage store msg fid true evs
      now).store.msgidToStreamId m = some fid := by
    rw [hmain]
    show mapGet (newContentWaitStore store (resolveMsgid msg) fid true evs
      now).msgidToStreamId m = some fid
    rw [hmsgid, newContentWaitStore_index]
    exact mapGet_mapSet_self _ _ _
  have hidx2 : mapGet (applyStreamEvents (handleDecryptedMessage store msg fid true evs
      now).store evsMid).msgidToStreamId m = some fid := by
    rw [applyStreamEvents_index]
    exact hidx1
  obtain ⟨st, hgetst, hkeep⟩ := hTTL
  have hstream_surv : mapGet (pruneStreams now2 (applyStreamEvents
      (handleDecryptedMessage store msg fid true evs now).store evsMid)).streams fid =
      some st :=
    mapGet_filter_of_mem _ _ _ _ hgetst (by simp [hkeep])
  have hidx_surv : mapGet (pruneStreams now2 (applyStreamEvents
      (handleDecryptedMessage store msg fid true evs now).store
        evsMid)).msgidToStreamId m = some fid :=
    mapGet_filter_of_mem _ _ _ _ hidx2 (mapHas_of_get hstream_surv)
  have hsecond := handleDecryptedMessage_dup _ msg m fid fid2 core2 evs2 now2
    hmsgid hstream hidx_surv
  refine ⟨?_, hidx1, ?_, ?_⟩
  · rw [hmain]
    rfl
  · rw [hsecond]
  · rw [hsecond]

/-- C3 witness: concrete first and retried delivery of message id m1. -/
theorem wecom_C3_witness :
    (handleDecryptedMessage ⟨[], []⟩
        { msgtype := some (strLit "text"), msgid := some (strLit "m1") }
        (strLit "s1") true [] 0).dispatchCount = 1 ∧
    mapGet (handleDecryptedMessage ⟨[], []⟩
        { msgtype := some (strLit "text"), msgid := some (strLit "m1") }
        (strLit "s1") true [] 0).store.msgidToStreamId (strLit "m1") =
      some (strLit "s1") ∧
    (handleDecryptedMessage (pruneStreams 9 (applyStreamEvents
        (handleDecryptedMessage ⟨[], []⟩
          { msgtype := some (strLit "text"), msgid := some (strLit "m1") }
          (strLit "s1") true [] 0).store []))
      { msgtype := some (strLit "text"), msgid := some (strLit "m1") }
      (strLit "s2") true [] 9).dispatchCount = 0 ∧
    (handleDecryptedMessage (pruneStreams 9 (applyStreamEvents
        (handleDecryptedMessage ⟨[], []⟩
          { msgtype := some (strLit "text"), msgid := some (strLit "m1") }
          (strLit "s1") true [] 0).store []))
      { msgtype := some (strLit "text"), msgid := some (strLit "m1") }
      (strLit "s2") true [] 9).plaintextReply = buildStreamPlaceholderReply (strLit "s1") :=
  wecom_C3_dedup ⟨[], []⟩
    { msgtype := some (strLit "text"), msgid := some (strLit "m1") }
    (strLit "m1") (strLit "s1") (strLit "s2") [] [] [] 0 9 true
    (by decide) (by decide) (by decide) (by decide)
    ⟨⟨strLit "s1", some (strLit "m1"), 0, 0, true, false, none, []⟩, by decide, by decide⟩

/-- C8 (counterexample).  A GET handshake where the signature of the single
registered target verifies but the target has no encodingAESKey: the handler
answers 401 unauthorized, not the 500 configuration error the claim
requires for every request kind. -/
theorem wecom_C8_counterexample :
    handleGetRequest ⟨fun _ _ _ _ _ => true, fun _ _ _ => some (strLit "plain")⟩
      [⟨0, ⟨true, strLit "tok", [], strLit "recv"⟩, strLit "/cb"⟩]
      (strLit "1") (strLit "2") (strLit "sig") (strLit "chal") =
      HttpResponse.plainText 401 (strLit "unauthorized") ∧
    (HttpResponse.plainText 401 (strLit "unauthorized")).status ≠ 500 := by
  constructor
  · decide
  · decide

/-- C8 (amended).  On a POST delivery, a target that authenticates but lacks
required key material is answered with the 500 configuration error; on a GET
handshake, a verified target without encodingAESKey is instead treated as an
authentication failure and answered 401. -/
theorem wecom_C8_amended :
    (∀ (cm : CryptoModel) (targets : List WecomAppWebhookTarget)
        (timestamp nonce signature echostr : Str) (target : WecomAppWebhookTarget),
      timestamp ≠ [] → nonce ≠ [] → signature ≠ [] → echostr ≠ [] →
      targets.find? (fun candidate =>
        candidate.account.configured && !(candidate.account.token == ([] : Str)) &&
          cm.verify candidate.account.token timestamp nonce echostr signature) =
        some target →
      target.account.encodingAESKey = [] →
      handleGetRequest cm targets timestamp nonce signature echostr =
        HttpResponse.plainText 401 (strLit "unauthorized")) ∧
    (∀ (cm : CryptoModel) (xmlFields : Str → List (Str × Str))
        (jsonMsgParse : Str → Option InboundMessage)
        (targets : List WecomAppWebhookTarget) (store : Store)
        (encrypt msgSignature msgTimestamp msgNonce freshId : Str) (core : Bool)
        (evs : List StreamEvent) (now : Nat) (target : WecomAppWebhookTarget),
      encrypt ≠ [] →
      targets.find? (fun candidate =>
        !(candidate.account.token == ([] : Str)) &&
          cm.verify candidate.account.token msgTimestamp msgNonce encrypt msgSignature) =
        some target →
      (target.account.configured = false ∨ target.account.token = [] ∨
        target.account.encodingAESKey = []) →
      (handlePostEnvelope cm xmlFields jsonMsgParse targets store encrypt msgSignature
        msgTimestamp msgNonce freshId core evs now).response =
        HttpResponse.plainText 500 (strLit "wecom-app not configured")) := by
  constructor
  · intro cm targets timestamp nonce signature echostr target ht hn hs he hfind hkey
    simp only [handleGetRequest]
    rw [if_neg (by simp [ht, hn, hs, he])]
    simp only [hfind]
    rw [if_pos hkey]
  · intro cm xmlFields jsonMsgParse targets store encrypt msgSignature msgTimestamp
      msgNonce freshId core evs now target henc hfind hbad
    simp only [handlePostEnvelope]
    rw [if_neg henc]
    simp only [hfind]
    split_ifs with hc
    · rfl
    · exfalso
      simp only [Bool.not_eq_true', Bool.or_eq_true, Bool.not_eq_true,
        decide_eq_true_eq] at hc
      rcases hbad with h | h | h <;> simp_all

/-- C8 witness: the amended statement at a concrete GET handshake (missing
key, signature verifies → 401) and a concrete POST delivery (same target →
500). -/
theorem wecom_C8_witness :
    handleGetRequest ⟨fun _ _ _ _ _ => true, fun _ _ _ => some (strLit "plain")⟩
      [⟨0, ⟨true, strLit "tok", [], strLit "recv"⟩, strLit "/cb"⟩]
      (strLit "1") (strLit "2") (strLit "sig") (strLit "chal") =
      HttpResponse.plainText 401 (strLit "unauthorized") ∧
    (handlePostEnvelope ⟨fun _ _ _ _ _ => true, fun _ _ _ => some (strLit "plain")⟩
      (fun _ => []) (fun _ => none)
      [⟨0, ⟨true, strLit "tok", [], strLit "recv"⟩, strLit "/cb"⟩] ⟨[], []⟩
      (strLit "enc") (strLit "sig") (strLit "1") (strLit "2") (strLit "f") true []
      0).response = HttpResponse.plainText 500 (strLit "wecom-app not configured") :=
  ⟨wecom_C8_amended.1 ⟨fun _ _ _ _ _ => true, fun _ _ _ => some (strLit "plain")⟩
      [⟨0, ⟨true, strLit "tok", [], strLit "recv"⟩, strLit "/cb"⟩]
      (strLit "1") (strLit "2") (strLit "sig") (strLit "chal")
      ⟨0, ⟨true, strLit "tok", [], strLit "recv"⟩, strLit "/cb"⟩
      (by decide) (by decide) (by decide) (by decide) (by decide) (by decide),
   wecom_C8_amended.2 ⟨fun _ _ _ _ _ => true, fun _ _ _ => some (strLit "plain")⟩
      (fun _ => []) (fun _ => none)
      [⟨0, ⟨true, strLit "tok", [], strLit "recv"⟩, strLit "/cb"⟩] ⟨[], []⟩
      (strLit "enc") (strLit "sig") (strLit "1") (strLit "2") (strLit "f") true [] 0
      ⟨0, ⟨true, strLit "tok", [], strLit "recv"⟩, strLit "/cb"⟩
      (by decide) (by decide) (Or.inr (Or.inr (by decide)))⟩

/-- C4 (counterexample).  The decrypted plaintext "oops" is neither
tag-delimited nor valid JSON (the JSON builtin throws, modelled by the
constantly-none parser); the parse yields the empty record, and the POST
flow answers 200 with an encrypted stream reply and dispatches generation —
no 400 client-input error is produced. -/
theorem wecom_C4_counterexample :
    parseWecomAppPlainMessage (fun _ => []) (fun _ => none) (strLit "oops") = {} ∧
    (handlePostEnvelope ⟨fun _ _ _ _ _ => true, fun _ _ _ => some (strLit "oops")⟩
      (fun _ => []) (fun _ => none)
      [⟨0, ⟨true, strLit "tok", strLit "key", strLit "recv"⟩, strLit "/cb"⟩] ⟨[], []⟩
      (strLit "enc") (strLit "sig") (strLit "1") (strLit "2") (strLit "s1") true []
      0).response.status = 200 ∧
    (handlePostEnvelope ⟨fun _ _ _ _ _ => true, fun _ _ _ => some (strLit "oops")⟩
      (fun _ => []) (fun _ => none)
      [⟨0, ⟨true, strLit "tok", strLit "key", strLit "recv"⟩, strLit "/cb"⟩] ⟨[], []⟩
      (strLit "enc") (strLit "sig") (strLit "1") (strLit "2") (strLit "s1") true []
      0).dispatchCount = 1 ∧
    ¬ ((handlePostEnvelope ⟨fun _ _ _ _ _ => true, fun _ _ _ => some (strLit "oops")⟩
      (fun _ => []) (fun _ => none)
      [⟨0, ⟨true, strLit "tok", strLit "key", strLit "recv"⟩, strLit "/cb"⟩] ⟨[], []⟩
      (strLit "enc") (strLit "sig") (strLit "1") (strLit "2") (strLit "s1") true []
      0).response.status = 400) := by
  refine ⟨by decide, by decide, by decide, by decide⟩

/-- C4 (amended).  Undecodable plaintext is not rejected: when the decrypted
plaintext is neither tag-delimited nor parseable JSON, the parse yields the
empty inbound record and the handler proceeds to classification, treating it
as a new content message — the response is the encrypted 200 reply and the
generation backend is dispatched; no client-input 400 is produced at this
stage. -/
theorem wecom_C4_amended (cm : CryptoModel) (xmlFields : Str → List (Str × Str))
    (jsonMsgParse : Str → Option InboundMessage) (targets : List WecomAppWebhookTarget)
    (store : Store) (encrypt msgSignature msgTimestamp msgNonce freshId : Str)
    (core : Bool) (evs : List StreamEvent) (now : Nat) (target : WecomAppWebhookTarget)
    (plain : Str)
    (henc : encrypt ≠ [])
    (hfind : targets.find? (fun candidate =>
      !(candidate.account.token == ([] : Str)) &&
        cm.verify candidate.account.token msgTimestamp msgNonce encrypt msgSignature) =
      some target)
    (hconf : target.account.configured = true)
    (htok : target.account.token ≠ [])
    (hkey : target.account.encodingAESKey ≠ [])
    (hdec : cm.decryptFn target.account.encodingAESKey target.account.receiveId encrypt =
      some plain)
    (hxml : isXmlFormat plain = false)
    (hjson : jsonMsgParse (jsTrim plain) = none) :
    parseWecomAppPlainMessage xmlFields jsonMsgParse plain = {} ∧
    (handlePostEnvelope cm xmlFields jsonMsgParse targets store encrypt msgSignature
      msgTimestamp msgNonce freshId core evs now).response =
      HttpResponse.encryptedJson
        ((handleDecryptedMessage store {} freshId core evs now).plaintextReply) ∧
    (handlePostEnvelope cm xmlFields jsonMsgParse targets store encrypt msgSignature
      msgTimestamp msgNonce freshId core evs now).response.status = 200 ∧
    (handlePostEnvelope cm xmlFields jsonMsgParse targets store encrypt msgSignature
      msgTimestamp msgNonce freshId core evs now).dispatchCount =
      (if core then 1 else 0) := by
  have hcond : ¬ (((jsTrim plain).head? == some '<' &&
      (jsTrim plain).getLast? == some '>') = true) := by
    simpa [isXmlFormat] using hxml
  have hparse : parseWecomAppPlainMessage xmlFields jsonMsgParse plain = {} := by
    simp only [parseWecomAppPlainMessage]
    rw [if_neg hcond, hjson]
    rfl
  have hpost : handlePostEnvelope cm xmlFields jsonMsgParse targets store encrypt
      msgSignature msgTimestamp msgNonce freshId core evs now =
      ⟨(handleDecryptedMessage store {} freshId core evs now).store,
       HttpResponse.encryptedJson
         ((handleDecryptedMessage store {} freshId core evs now).plaintextReply),
       (handleDecryptedMessage store {} freshId core evs now).dispatchCount⟩ := by
    simp only [handlePostEnvelope]
    rw [if_neg henc]
    simp only [hfind]
    split_ifs with hc
    · exfalso
      simp [hconf, htok, hkey] at hc
    · simp only [hdec, hparse]
  have hdisp : (handleDecryptedMessage store ({} : InboundMessage) freshId core evs
      now).dispatchCount = (if core then 1 else 0) := by
    rw [handleDecryptedMessage_new store {} freshId core evs now (by decide)
      (by intro hc; exact absurd hc.1 (by decide)) (by decide)]
  exact ⟨hparse, by rw [hpost], by rw [hpost]; rfl, by rw [hpost]; exact hdisp⟩

/-- C4 witness: the amended statement at the concrete undecodable plaintext
"oops". -/
theorem wecom_C4_witness :
    parseWecomAppPlainMessage (fun _ => []) (fun _ => none) (strLit "oops") = {} ∧
    (handlePostEnvelope ⟨fun _ _ _ _ _ => true, fun _ _ _ => some (strLit "oops")⟩
      (fun _ => []) (fun _ => none)
      [⟨0, ⟨true, strLit "tok", strLit "key", strLit "recv"⟩, strLit "/cb"⟩] ⟨[], []⟩
      (strLit "enc") (strLit "sig") (strLit "1") (strLit "2") (strLit "s1") true []
      0).response =
      HttpResponse.encryptedJson
        ((handleDecryptedMessage ⟨[], []⟩ {} (strLit "s1") true [] 0).plaintextReply) :=
  ⟨(wecom_C4_amended ⟨fun _ _ _ _ _ => true, fun _ _ _ => some (strLit "oops")⟩
      (fun _ => []) (fun _ => none)
      [⟨0, ⟨true, strLit "tok", strLit "key", strLit "recv"⟩, strLit "/cb"⟩] ⟨[], []⟩
      (strLit "enc") (strLit "sig") (strLit "1") (strLit "2") (strLit "s1") true [] 0
      ⟨0, ⟨true, strLit "tok", strLit "key", strLit "recv"⟩, strLit "/cb"⟩
      (strLit "oops") (by decide) (by decide) (by decide) (by decide) (by decide)
      (by decide) (by decide) (by decide)).1,
   (wecom_C4_amended ⟨fun _ _ _ _ _ => true, fun _ _ _ => some (strLit "oops")⟩
      (fun _ => []) (fun _ => none)
      [⟨0, ⟨true, strLit "tok", strLit "key", strLit "recv"⟩, strLit "/cb"⟩] ⟨[], []⟩
      (strLit "enc") (strLit "sig") (strLit "1") (strLit "2") (strLit "s1") true [] 0
      ⟨0, ⟨true, strLit "tok", strLit "key", strLit "recv"⟩, strLit "/cb"⟩
      (strLit "oops") (by decide) (by decide) (by decide) (by decide) (by decide)
      (by decide) (by decide) (by decide)).2.1⟩

theorem mapGet_mapDelete_self {α : Type} (m : List (Str × α)) (k : Str) :
    mapGet (mapDelete m k) k = none := by
  induction m with
  | nil => rfl
  | cons e m ih =>
    by_cases he : e.1 == k
    · simp only [mapDelete, List.filter_cons, he, Bool.not_true]
      exact ih
    · simp only [mapDelete, List.filter_cons, he, Bool.not_false, if_pos]
      rw [mapGet_cons, if_neg he]
      exact ih

theorem mapGet_mapDelete_ne {α : Type} (m : List (Str × α)) (k p : Str) (h : p ≠ k) :
    mapGet (mapDelete m k) p = mapGet m p := by
  induction m with
  | nil => rfl
  | cons e m ih =>
    by_cases he : e.1 == k
    · have hek : e.1 = k := eq_of_beq he
      have hne : (e.1 == p) = false :=
        beq_eq_false_iff_ne.mpr (by rw [hek]; exact fun hh => h hh.symm)
      have hnp : ¬ ((e.1 == p) = true) := by simp [hne]
      simp only [mapDelete, List.filter_cons, he, Bool.not_true]
      rw [mapGet_cons, if_neg hnp]
      exact ih
    · simp only [mapDelete, List.filter_cons, he, Bool.not_false, if_pos]
      rw [mapGet_cons, mapGet_cons]
      by_cases hep : e.1 == p
      · rw [if_pos hep, if_pos hep]
      · rw [if_neg hep, if_neg hep]
        exact ih

theorem mapSet_mapSet_same {α : Type} (m : List (Str × α)) (k : Str) (v : α) :
    mapSet (mapSet m k v) k v = mapSet m k v := by
  induction m with
  | nil => simp [mapSet]
  | cons e m ih =>
    by_cases he : e.1 == k
    · simp [mapSet, he]
    · simp only [mapSet, he, if_neg, Bool.false_eq_true, ite_false]
      rw [ih]

/-- C10 (confirmed).  The unregister closure returned by
`registerWecomAppWebhookTarget` removes exactly the captured registration:
the path now maps to the other registrations in order (and is deleted when
none remain), every other path is untouched, registrations with a different
identity on the same path survive, a second call changes nothing, and
unregistering a freshly registered target restores the original lookups of
its path. -/
theorem wecom_C10_unregister (reg : Registry) (key : Str) (tag : Nat) :
    mapGet (unregisterWecomAppWebhookTarget reg key tag) key =
      (if ((mapGet reg key).getD []).filter (fun entry => !(entry.tag == tag)) = [] then
        none
      else some (((mapGet reg key).getD []).filter (fun entry => !(entry.tag == tag)))) ∧
    (∀ p, p ≠ key → mapGet (unregisterWecomAppWebhookTarget reg key tag) p =
      mapGet reg p) ∧
    (∀ t, t ∈ (mapGet reg key).getD [] → t.tag ≠ tag →
      t ∈ (mapGet (unregisterWecomAppWebhookTarget reg key tag) key).getD []) ∧
    unregisterWecomAppWebhookTarget (unregisterWecomAppWebhookTarget reg key tag) key
      tag = unregisterWecomAppWebhookTarget reg key tag ∧
    (∀ target freshTag, normalizeWebhookPath target.path = key →
      (∀ t ∈ (mapGet reg key).getD [], t.tag ≠ freshTag) →
      mapGet (unregisterWecomAppWebhookTarget
        (registerWecomAppWebhookTarget reg target freshTag) key freshTag) key =
      (if (mapGet reg key).getD [] = [] then none else some ((mapGet reg key).getD []))) := by
  have hbase : ∀ (r : Registry) (k : Str) (tg : Nat),
      mapGet (unregisterWecomAppWebhookTarget r k tg) k =
      (if ((mapGet r k).getD []).filter (fun entry => !(entry.tag == tg)) = [] then none
       else some (((mapGet r k).getD []).filter (fun entry => !(entry.tag == tg)))) := by
    intro r k tg
    simp only [unregisterWecomAppWebhookTarget]
    by_cases hnil : ((mapGet r k).getD []).filter (fun entry => !(entry.tag == tg)) = []
    · rw [if_neg (by rw [hnil]; simp), if_pos hnil]
      exact mapGet_mapDelete_self r k
    · rw [if_pos (List.length_pos.mpr hnil), if_neg hnil]
      exact mapGet_mapSet_self r k _
  refine ⟨hbase reg key tag, ?_, ?_, ?_, ?_⟩
  · intro p hp
    simp only [unregisterWecomAppWebhookTarget]
    split_ifs
    · exact mapGet_mapSet_ne _ _ _ _ hp
    · exact mapGet_mapDelete_ne _ _ _ hp
  · intro t ht htag
    have hmem : t ∈ ((mapGet reg key).getD []).filter (fun entry => !(entry.tag == tag)) := by
      rw [List.mem_filter]
      exact ⟨ht, by simp [htag]⟩
    rw [hbase reg key tag, if_neg (List.ne_nil_of_mem hmem)]
    simpa using hmem
  · by_cases hnil : ((mapGet reg key).getD []).filter
        (fun entry => !(entry.tag == tag)) = []
    · have hfirst : unregisterWecomAppWebhookTarget reg key tag = mapDelete reg key := by
        simp only [unregisterWecomAppWebhookTarget]
        rw [hnil]
        simp
      rw [hfirst]
      simp only [unregisterWecomAppWebhookTarget]
      rw [mapGet_mapDelete_self]
      simp only [Option.getD_none, List.filter_nil, List.length_nil]
      rw [if_neg (by simp)]
      exact filter_idem _ _
    · have hpos : 0 < (((mapGet reg key).getD []).filter
          (fun entry => !(entry.tag == tag))).length := List.length_pos.mpr hnil
      have hfirst : unregisterWecomAppWebhookTarget reg key tag =
          mapSet reg key (((mapGet reg key).getD []).filter
            (fun entry => !(entry.tag == tag))) := by
        simp only [unregisterWecomAppWebhookTarget]
        rw [if_pos hpos]
      rw [hfirst]
      simp only [unregisterWecomAppWebhookTarget]
      rw [mapGet_mapSet_self]
      simp only [Option.getD_some]
      rw [filter_idem, if_pos hpos]
      exact mapSet_mapSet_same _ _ _
  · intro target freshTag hpath hfresh
    have hreg : mapGet (registerWecomAppWebhookTarget reg target freshTag) key =
        some ((mapGet reg key).getD [] ++
          [{ target with path := key, tag := freshTag }]) := by
      simp only [registerWecomAppWebhookTarget, hpath]
      exact mapGet_mapSet_self _ _ _
    rw [hbase _ key freshTag, hreg]
    simp only [Option.getD_some, List.filter_append]
    have hkeep : ((mapGet reg key).getD []).filter
        (fun entry => !(entry.tag == freshTag)) = (mapGet reg key).getD [] :=
      List.filter_eq_self.mpr (fun t ht => by simp [hfresh t ht])
    have hdropnew : ([{ target with path := key, tag := freshTag }] :
        List WecomAppWebhookTarget).filter (fun entry => !(entry.tag == freshTag)) = [] := by
      simp
    rw [hkeep, hdropnew, List.append_nil]

/-- C10 witness: unregistering one of two registrations on a path keeps the
other and leaves a second path untouched. -/
theorem wecom_C10_witness :
    mapGet (unregisterWecomAppWebhookTarget
      [(strLit "/cb", [⟨1, ⟨true, strLit "t1", strLit "k1", strLit "r1"⟩, strLit "/cb"⟩,
        ⟨2, ⟨true, strLit "t2", strLit "k2", strLit "r2"⟩, strLit "/cb"⟩]),
       (strLit "/other", [⟨3, ⟨true, strLit "t3", strLit "k3", strLit "r3"⟩,
        strLit "/other"⟩])]
      (strLit "/cb") 1) (strLit "/other") =
      some [⟨3, ⟨true, strLit "t3", strLit "k3", strLit "r3"⟩, strLit "/other"⟩] ∧
    (⟨2, ⟨true, strLit "t2", strLit "k2", strLit "r2"⟩, strLit "/cb"⟩ :
        WecomAppWebhookTarget) ∈
      (mapGet (unregisterWecomAppWebhookTarget
        [(strLit "/cb", [⟨1, ⟨true, strLit "t1", strLit "k1", strLit "r1"⟩, strLit "/cb"⟩,
          ⟨2, ⟨true, strLit "t2", strLit "k2", strLit "r2"⟩, strLit "/cb"⟩]),
         (strLit "/other", [⟨3, ⟨true, strLit "t3", strLit "k3", strLit "r3"⟩,
          strLit "/other"⟩])]
        (strLit "/cb") 1) (strLit "/cb")).getD [] :=
  ⟨(wecom_C10_unregister
      [(strLit "/cb", [⟨1, ⟨true, strLit "t1", strLit "k1", strLit "r1"⟩, strLit "/cb"⟩,
        ⟨2, ⟨true, strLit "t2", strLit "k2", strLit "r2"⟩, strLit "/cb"⟩]),
       (strLit "/other", [⟨3, ⟨true, strLit "t3", strLit "k3", strLit "r3"⟩,
        strLit "/other"⟩])]
      (strLit "/cb") 1).2.1 (strLit "/other") (by decide),
   (wecom_C10_unregister
      [(strLit "/cb", [⟨1, ⟨true, strLit "t1", strLit "k1", strLit "r1"⟩, strLit "/cb"⟩,
        ⟨2, ⟨true, strLit "t2", strLit "k2", strLit "r2"⟩, strLit "/cb"⟩]),
       (strLit "/other", [⟨3, ⟨true, strLit "t3", strLit "k3", strLit "r3"⟩,
        strLit "/other"⟩])]
      (strLit "/cb") 1).2.2.1
     ⟨2, ⟨true, strLit "t2", strLit "k2", strLit "r2"⟩, strLit "/cb"⟩
     (by decide) (by decide)⟩
